import Mathlib

/-!
Verification development for the Lexiden legal-document backend
(src/backend/functions.py and src/backend/app.py).

Strings are modelled as lists of characters (`S`).  All Python string
operations used by the backend (lower/upper/title/strip, str.replace,
and the specific regular expressions appearing in the source) are given
executable, structurally recursive models so that concrete runs can be
evaluated inside proofs.  Regular-expression behaviour is modelled for
exactly the patterns the source uses; for each of them the alternatives
are prefix-disjoint, so a maximal-munch matcher coincides with the
backtracking semantics of the `re` module (checked against CPython).
-/

set_option maxHeartbeats 2000000
set_option maxRecDepth 8000

namespace Lexiden

abbrev S := List Char

/-- ASCII lower-casing of one character (model of Python str.lower / re.IGNORECASE folding). -/
def lcC (c : Char) : Char :=
  if 'A' ≤ c ∧ c ≤ 'Z' then Char.ofNat (c.toNat + 32) else c

/-- ASCII upper-casing of one character (model of Python str.upper). -/
def ucC (c : Char) : Char :=
  if 'a' ≤ c ∧ c ≤ 'z' then Char.ofNat (c.toNat - 32) else c

def lcs (s : S) : S := s.map lcC

def isDigitC (c : Char) : Bool := decide ('0' ≤ c) && decide (c ≤ '9')

def isOctC (c : Char) : Bool := decide ('0' ≤ c) && decide (c ≤ '7')

def isAlphaC (c : Char) : Bool :=
  (decide ('a' ≤ c) && decide (c ≤ 'z')) || (decide ('A' ≤ c) && decide (c ≤ 'Z'))

/-- Word character for the regex metacharacter matching word boundaries. -/
def isWordC (c : Char) : Bool := isAlphaC c || isDigitC c || decide (c = '_')

/-- Python str whitespace (the characters stripped by str.strip and matched by regex whitespace). -/
def isSpaceC (c : Char) : Bool :=
  decide (c = ' ') || decide (c = '\t') || decide (c = '\n') || decide (c = '\r') ||
  decide (c = '\x0b') || decide (c = '\x0c')

/-- Does the first list occur as a prefix of the second (case-sensitive)? -/
def startsWithL : S → S → Bool
  | [], _ => true
  | _ :: _, [] => false
  | c :: t, d :: s => decide (c = d) && startsWithL t s

/-- Case-insensitive prefix test (ASCII folding, as re.IGNORECASE does on this input set). -/
def ciStartsWith : S → S → Bool
  | [], _ => true
  | _ :: _, [] => false
  | c :: t, d :: s => decide (lcC c = lcC d) && ciStartsWith t s

/-- Python substring containment (the `in` operator on str). -/
def occursIn (t : S) : S → Bool
  | [] => startsWithL t []
  | s@(_ :: rest) => startsWithL t s || occursIn t rest

/-- Does t occur starting strictly before position n? -/
def occursBefore (t : S) : S → Nat → Bool
  | _, 0 => false
  | [], _ + 1 => startsWithL t []
  | s@(_ :: rest), n + 1 => startsWithL t s || occursBefore t rest n

/-- Python str.replace(old, new, 1): replace the first occurrence, case-sensitively. -/
def replaceFirstL (t r : S) : S → S
  | [] => if startsWithL t [] then r else []
  | c :: rest =>
      if startsWithL t (c :: rest) then r ++ (c :: rest).drop t.length
      else c :: replaceFirstL t r rest

/-- Worker for replace-all, with fuel bounding the scan (fuel ≥ length suffices). -/
def raGo (t r : S) : Nat → S → S
  | _, [] => []
  | 0, s => s
  | f + 1, c :: rest =>
      if startsWithL t (c :: rest) then r ++ raGo t r f ((c :: rest).drop t.length)
      else c :: raGo t r f rest

/-- Python behaviour of str.replace with an empty search string. -/
def interleave (r : S) : S → S
  | [] => r
  | c :: rest => r ++ c :: interleave r rest

/-- Python str.replace(old, new): replace every occurrence, case-sensitively, scanning left to right. -/
def replaceAll (t r s : S) : S :=
  if t = [] then interleave r s else raGo t r s.length s

/-- Python str.strip(): drop leading and trailing whitespace. -/
def stripPy (s : S) : S :=
  ((s.dropWhile (fun c => isSpaceC c)).reverse.dropWhile (fun c => isSpaceC c)).reverse

/-- Python str.title() restricted to ASCII: a letter is upper-cased after a non-letter, lower-cased after a letter. -/
def titleGo : Bool → S → S
  | _, [] => []
  | prev, c :: rest =>
      if isAlphaC c then (if prev then lcC c else ucC c) :: titleGo true rest
      else c :: titleGo false rest

def titlePy (s : S) : S := titleGo false s

/-- Value of a digit string, as Python int() parses the digits captured by a regex group. -/
def natOfDigits (ds : S) : Nat := ds.foldl (fun a c => a * 10 + (c.toNat - 48)) 0

/-- Decimal numeral printer (fueled; fuel dominates the digit count). -/
def natLitGo : Nat → Nat → S
  | 0, _ => []
  | f + 1, n =>
      if n < 10 then [Char.ofNat (48 + n)]
      else natLitGo f (n / 10) ++ [Char.ofNat (48 + n % 10)]

/-- Decimal numeral of a natural number, as Python str() renders it. -/
def natLit (n : Nat) : S := natLitGo (n + 1) n

/-- Consume an exact literal from the front, returning the rest. -/
def chewLit : S → S → Option S
  | [], s => some s
  | _ :: _, [] => none
  | c :: t, d :: s => if c = d then chewLit t s else none

/-- Consume a literal case-insensitively, returning the consumed text as it appeared and the rest. -/
def chewCI : S → S → Option (S × S)
  | [], s => some ([], s)
  | _ :: _, [] => none
  | c :: t, d :: s =>
      if lcC c = lcC d then (chewCI t s).map (fun p => (d :: p.1, p.2)) else none

/-!  Replacement templates.

`re.sub` parses its replacement string as a template before scanning for
matches (CPython compiles the template eagerly, so an invalid escape raises
even when nothing matches).  `templGo g m s` models that parse together with
the expansion for a pattern with `g` capture groups in which every valid
group reference (including the whole match, group 0) expands to `m`: in this
code base the only pattern with a group wraps the whole pattern in that
group, so each valid reference denotes the entire matched text.  The result
is `none` exactly when CPython raises an `re.error` or a group-name
`IndexError` for the template. -/

def octVal (c : Char) : Nat := c.toNat - 48

/-- Outcome of handling one escape sequence: invalid, or some produced text
together with the input remaining after the sequence. -/
inductive EscStep where
  | bad
  | out (produced : S) (rest : S)

/-- Handle the text following a backslash, per CPython parse_template: group
references and octals, the known character escapes, errors on ASCII-letter
escapes and invalid groups, other escapes kept verbatim. -/
def escStep (g : Nat) (m : S) : S → EscStep
  | [] => EscStep.bad
  | c :: r =>
      if c = '\\' then EscStep.out ['\\'] r
      else if c = 'n' then EscStep.out ['\n'] r
      else if c = 't' then EscStep.out ['\t'] r
      else if c = 'r' then EscStep.out ['\r'] r
      else if c = 'a' then EscStep.out ['\x07'] r
      else if c = 'b' then EscStep.out ['\x08'] r
      else if c = 'f' then EscStep.out ['\x0c'] r
      else if c = 'v' then EscStep.out ['\x0b'] r
      else if c = 'g' then
        match r with
        | '<' :: r2 =>
            let ds := r2.takeWhile (fun c2 => isDigitC c2)
            let r3 := r2.dropWhile (fun c2 => isDigitC c2)
            match r3 with
            | '>' :: r4 =>
                if ds = [] then EscStep.bad
                else if natOfDigits ds ≤ g then EscStep.out m r4
                else EscStep.bad
            | _ => EscStep.bad
        | _ => EscStep.bad
      else if c = '0' then
        match r with
        | d1 :: d2 :: r3 =>
            if isOctC d1 && isOctC d2 then
              EscStep.out [Char.ofNat (octVal d1 * 8 + octVal d2)] r3
            else if isOctC d1 then EscStep.out [Char.ofNat (octVal d1)] (d2 :: r3)
            else EscStep.out ['\x00'] r
        | [d1] =>
            if isOctC d1 then EscStep.out [Char.ofNat (octVal d1)] []
            else EscStep.out ['\x00'] r
        | [] => EscStep.out ['\x00'] []
      else if isDigitC c then
        match r with
        | d2 :: d3 :: r3 =>
            if isDigitC d2 then
              if isOctC c && isOctC d2 && isOctC d3 then
                let v := octVal c * 64 + octVal d2 * 8 + octVal d3
                if v ≤ 255 then EscStep.out [Char.ofNat v] r3 else EscStep.bad
              else if natOfDigits [c, d2] ≤ g then EscStep.out m (d3 :: r3)
              else EscStep.bad
            else if natOfDigits [c] ≤ g then EscStep.out m r
            else EscStep.bad
        | [d2] =>
            if isDigitC d2 then
              if natOfDigits [c, d2] ≤ g then EscStep.out m [] else EscStep.bad
            else if natOfDigits [c] ≤ g then EscStep.out m r
            else EscStep.bad
        | [] => if natOfDigits [c] ≤ g then EscStep.out m [] else EscStep.bad
      else if isAlphaC c then EscStep.bad
      else EscStep.out ['\\', c] r

/-- Fueled template parser/expander; the fuel only has to dominate the input
length, and every recursive call consumes at least one input character. -/
def templGoF (g : Nat) (m : S) : Nat → S → Option S
  | _, [] => some []
  | 0, _ :: _ => none
  | f + 1, c :: rest =>
      if c = '\\' then
        match escStep g m rest with
        | EscStep.bad => none
        | EscStep.out prod rest2 => (templGoF g m f rest2).map (fun t => prod ++ t)
      else (templGoF g m f rest).map (fun t => c :: t)

def templGo (g : Nat) (m s : S) : Option S := templGoF g m s.length s

/-- Is the replacement template valid for a pattern with g groups? -/
def templOk (g : Nat) (s : S) : Bool := (templGo g [] s).isSome

/-- Expand the template for one concrete match m (callers check templOk first). -/
def templExpand (g : Nat) (m s : S) : S := (templGo g m s).getD s

/-- Single case-insensitive substitution of the first occurrence of the
escaped literal t, with per-match template expansion of the replacement
(model of re.sub with count 1 and IGNORECASE on an escaped pattern). -/
def subFirstCIT (t rTempl : S) : S → S
  | [] => if ciStartsWith t [] then templExpand 0 [] rTempl else []
  | c :: rest =>
      if ciStartsWith t (c :: rest) then
        templExpand 0 ((c :: rest).take t.length) rTempl ++ (c :: rest).drop t.length
      else c :: subFirstCIT t rTempl rest

/-!  The specific patterns used by apply_edits.

For each pattern the successive atoms consume disjoint character classes, so
maximal munch needs no backtracking, except for the optional plural in the
year phrase, whose one backtracking step is spelled out. -/

/-- Match of the clause-heading pattern (digits, a dot, optional whitespace,
the two words case-insensitively) at the head of s; returns the matched text
and the digit group. -/
def gpParseAt (s : S) : Option (S × S) :=
  let ds := s.takeWhile (fun c => isDigitC c)
  let r1 := s.dropWhile (fun c => isDigitC c)
  if ds = [] then none else
  match r1 with
  | '.' :: r2 =>
      let w1 := r2.takeWhile (fun c => isSpaceC c)
      let r3 := r2.dropWhile (fun c => isSpaceC c)
      match chewCI ("GENERAL".data) r3 with
      | none => none
      | some (gTxt, r4) =>
          let w2 := r4.takeWhile (fun c => isSpaceC c)
          let r5 := r4.dropWhile (fun c => isSpaceC c)
          match chewCI ("PROVISIONS".data) r5 with
          | none => none
          | some (pTxt, _) => some (ds ++ '.' :: (w1 ++ gTxt ++ w2 ++ pTxt), ds)
  | _ => none

/-- Leftmost match of the clause-heading pattern (model of re.search). -/
def gpFind : S → Option (S × S)
  | [] => none
  | s@(_ :: rest) =>
      match gpParseAt s with
      | some r => some r
      | none => gpFind rest

/-- Match of the case-sensitive duration pattern (the word period, whitespace,
of, whitespace, a digit group, whitespace, years) at the head of s; returns
the digit group. -/
def periodParseAt (s : S) : Option S :=
  match chewLit ("period".data) s with
  | none => none
  | some r1 =>
      let w1 := r1.takeWhile (fun c => isSpaceC c)
      let r2 := r1.dropWhile (fun c => isSpaceC c)
      if w1 = [] then none else
      match chewLit ("of".data) r2 with
      | none => none
      | some r3 =>
          let w2 := r3.takeWhile (fun c => isSpaceC c)
          let r4 := r3.dropWhile (fun c => isSpaceC c)
          if w2 = [] then none else
          let ds := r4.takeWhile (fun c => isDigitC c)
          let r5 := r4.dropWhile (fun c => isDigitC c)
          if ds = [] then none else
          let w3 := r5.takeWhile (fun c => isSpaceC c)
          let r6 := r5.dropWhile (fun c => isSpaceC c)
          if w3 = [] then none else
          match chewLit ("years".data) r6 with
          | none => none
          | some _ => some ds

/-- Leftmost match of the duration pattern. -/
def periodFind : S → Option S
  | [] => none
  | s@(_ :: rest) =>
      match periodParseAt s with
      | some ds => some ds
      | none => periodFind rest

/-- ISO date (four digits, dash, two digits, dash, two digits) at the head of s. -/
def isoParseAt : S → Option Nat
  | a :: b :: c :: d :: '-' :: e :: f :: '-' :: g :: h :: _ =>
      if isDigitC a && isDigitC b && isDigitC c && isDigitC d &&
         isDigitC e && isDigitC f && isDigitC g && isDigitC h then some 10 else none
  | _ => none

/-- Does a word boundary hold before the given suffix? -/
def boundaryAt : S → Bool
  | [] => true
  | c :: _ => !isWordC c

/-- Match of the year phrase (word boundary, digits, optional whitespace, the
word year with an optional plural, word boundary), case-insensitively. -/
def yearParseAt (prev : Option Char) (s : S) : Option Nat :=
  let leftOk := match prev with
    | none => true
    | some c => !isWordC c
  if !leftOk then none else
  let ds := s.takeWhile (fun c => isDigitC c)
  if ds = [] then none else
  let r1 := s.dropWhile (fun c => isDigitC c)
  let w := r1.takeWhile (fun c => isSpaceC c)
  let r2 := r1.dropWhile (fun c => isSpaceC c)
  match chewCI ("year".data) r2 with
  | none => none
  | some (_, r3) =>
      let base := ds.length + w.length + 4
      match r3 with
      | [] => some base
      | c :: rest2 =>
          if lcC c = 's' then (if boundaryAt rest2 then some (base + 1) else none)
          else if isWordC c then none
          else some base

/-- One alternative of the date pattern at the head of s (alternation order as
in the source pattern); returns the match length. -/
def dateParseAt (prev : Option Char) (s : S) : Option Nat :=
  match isoParseAt s with
  | some n => some n
  | none =>
  match chewCI ("[DATE]".data) s with
  | some _ => some 6
  | none =>
  match chewCI ("[EFFECTIVE DATE]".data) s with
  | some _ => some 16
  | none =>
  match chewCI ("[START DATE]".data) s with
  | some _ => some 12
  | none => yearParseAt prev s

/-- re.sub of the date pattern with count 1 and IGNORECASE: replace the
leftmost match with the expanded template (the pattern wraps everything in
one group, so group references denote the whole match). -/
def dateSubGo (v : S) (prev : Option Char) : S → S
  | [] => []
  | s@(c :: rest) =>
      match dateParseAt prev s with
      | some n => templExpand 1 (s.take n) v ++ s.drop n
      | none => c :: dateSubGo v (some c) rest

def dateSub (v doc : S) : S := dateSubGo v none doc

/-- Is there any match of the date pattern in s? -/
def dateHasGo (prev : Option Char) : S → Bool
  | [] => false
  | s@(c :: rest) => (dateParseAt prev s).isSome || dateHasGo (some c) rest

def dateHas (doc : S) : Bool := dateHasGo none doc

/-- The literal alternatives of the name-placeholder pattern, in source order. -/
def nameLits : List S :=
  ["[DIRECTOR NAME]".data, "[EMPLOYEE NAME]".data, "[PARTY NAME]".data,
   "[NAME]".data, "[DISCLOSING PARTY]".data, "[RECEIVING PARTY]".data]

def nameParseAt (s : S) : Option Nat :=
  nameLits.findSome? (fun lit => if startsWithL lit s then some lit.length else none)

/-- re.sub of the name-placeholder pattern (case-sensitive, all occurrences),
fueled scan; the pattern has no groups. -/
def nameSubGo (v : S) : Nat → S → S
  | _, [] => []
  | 0, s => s
  | f + 1, s@(c :: rest) =>
      match nameParseAt s with
      | some n => templExpand 0 (s.take n) v ++ nameSubGo v f (s.drop n)
      | none => c :: nameSubGo v f rest

def nameSub (v doc : S) : S := nameSubGo v doc.length doc

/-- Is there any match of the name-placeholder pattern in s? -/
def nameHas : S → Bool
  | [] => false
  | s@(_ :: rest) => (nameParseAt s).isSome || nameHas rest

/-!  Python values and dictionaries.

Values carried through the tool-call layer are modelled by `Val`: strings,
integers, lists, JSON objects and None (floats and booleans do not occur in
any behaviour the claims mention).  A dictionary is an insertion-ordered
association list with unique keys; update keeps the original position of an
existing key, as Python dictionaries do. -/

inductive Val where
  | vStr (s : S)
  | vNum (n : Int)
  | vList (l : List Val)
  | vDict (m : List (S × Val))
  | vNone

/-- Python truthiness of a value. -/
def truthy : Val → Bool
  | Val.vStr s => !s.isEmpty
  | Val.vNum n => decide (n ≠ 0)
  | Val.vList l => !l.isEmpty
  | Val.vDict m => !m.isEmpty
  | Val.vNone => false

mutual

/-- Python repr, used by str() on lists; quoting of strings is the plain
single-quote form (escape sequences inside reprs do not occur in this code
base's data, and dict reprs are abbreviated). -/
def pyRepr : Val → S
  | Val.vStr s => '\'' :: s ++ ['\'']
  | Val.vNum n => (Int.repr n).data
  | Val.vList l => '[' :: joinRepr l ++ [']']
  | Val.vDict _ => "--dict--".data
  | Val.vNone => "None".data

def joinRepr : List Val → S
  | [] => []
  | [x] => pyRepr x
  | x :: y :: rest => pyRepr x ++ ", ".data ++ joinRepr (y :: rest)

end

/-- Python str() of a value, as an f-string interpolates it. -/
def pyStr : Val → S
  | Val.vStr s => s
  | v => pyRepr v

/-- First binding of a key in an association list. -/
def aget {α : Type} (m : List (S × α)) (k : S) : Option α :=
  match m with
  | [] => none
  | (k2, v) :: rest => if k2 = k then some v else aget rest k

/-- Dictionary assignment: overwrite in place, else append. -/
def aset {α : Type} (m : List (S × α)) (k : S) (v : α) : List (S × α) :=
  match m with
  | [] => [(k, v)]
  | (k2, v2) :: rest => if k2 = k then (k2, v) :: rest else (k2, v2) :: aset rest k v

/-- Dictionary pop with default None: the looked-up value and the list with
the key removed (dictionaries have unique keys, so removing every binding of
the key agrees with Python). -/
def apop {α : Type} (m : List (S × α)) (k : S) : Option α × List (S × α) :=
  (aget m k, m.filter (fun p => p.1 ≠ k))

/-- Python dict.update: fold the new bindings over the old dictionary. -/
def dUpdate (a b : List (S × Val)) : List (S × Val) :=
  b.foldl (fun acc p => aset acc p.1 p.2) a

/-- Python dict.get with default None. -/
def dget (m : List (S × Val)) (k : S) : Val := (aget m k).getD Val.vNone

/-!  The global stores of functions.py.

`extracted` models extracted_data_store: a map from session id to a session
dictionary whose values are either an ExtractedData dictionary (for a
document-type key) or a plain string (the current_document_id pointer) — the
source stores both kinds of value in the same dict, so entries are `Val`.
`docs` models document_store. -/

structure St where
  extracted : List (S × List (S × Val))
  docs : List (S × S)

def sessOf (st : St) (sid : S) : List (S × Val) := (aget st.extracted sid).getD []

def sessEntry (st : St) (sid k : S) : Option Val := aget (sessOf st sid) k

/-- Write one session entry, lazily creating the session dictionary as the
source does. -/
def setSessEntry (st : St) (sid k : S) (v : Val) : St :=
  { st with extracted := aset st.extracted sid (aset (sessOf st sid) k v) }

def emptySt : St := { extracted := [], docs := [] }

/-!  validate_required_fields (functions.py lines 82-119). -/

def ndaFields : List (S × List S) :=
  [("disclosing_party".data,
    ["disclosing_party".data, "disclosing_party_name".data, "party1".data, "company_name".data]),
   ("receiving_party".data,
    ["receiving_party".data, "receiving_party_name".data, "party2".data, "recipient".data]),
   ("effective_date".data, ["effective_date".data, "date".data, "start_date".data]),
   ("purpose".data, ["purpose".data, "purpose_of_disclosure".data, "reason".data]),
   ("term_years".data, ["term".data, "term_years".data, "duration".data, "period".data]),
   ("jurisdiction".data, ["jurisdiction".data, "state".data, "governing_law".data])]

def employmentFields : List (S × List S) :=
  [("employee_name".data, ["employee_name".data, "name".data]),
   ("position".data, ["position".data, "title".data, "role".data]),
   ("start_date".data, ["start_date".data, "effective_date".data, "date".data]),
   ("salary".data, ["salary".data, "compensation".data, "pay".data])]

def directorFields : List (S × List S) :=
  [("director_name".data, ["director_name".data, "name".data]),
   ("effective_date".data, ["effective_date".data, "date".data])]

/-- The category tests of validate_required_fields, in its order of checks
(NDA, then employment, then director/appointment). -/
def requiredFields (document_type : S) : List (S × List S) :=
  if lcs document_type = "nda".data || occursIn ("non-disclosure".data) (lcs document_type) then
    ndaFields
  else if occursIn ("employment".data) (lcs document_type) then employmentFields
  else if occursIn ("director".data) (lcs document_type)
          || occursIn ("appointment".data) (lcs document_type) then directorFields
  else []

def missingOf (document_type : S) (data : List (S × Val)) : List S :=
  (requiredFields document_type).filterMap
    (fun p => if p.2.any (fun a => truthy (dget data a)) then none else some p.1)

def joinCommaSp : List S → S
  | [] => []
  | [x] => x
  | x :: y :: rest => x ++ ", ".data ++ joinCommaSp (y :: rest)

def missingErr (document_type : S) (missing : List S) : S :=
  "ERROR: Missing required fields for ".data ++ document_type ++ ": ".data ++
  joinCommaSp missing ++
  ". Please provide all required information before generating the document.".data

def validate_required_fields (document_type : S) (data : List (S × Val)) : Option S :=
  let missing := missingOf document_type data
  if missing = [] then none else some (missingErr document_type missing)

/-!  extract_information (functions.py lines 122-139).

The result value of the Python function is a status dictionary whose only
data payload is the merged mapping; the model returns that mapping.  A
Python exception escaping the function is `PyRes.exc`; the store component
always carries the mutations performed before the exception (module-level
dictionaries survive an exception). -/

inductive PyRes (α : Type) where
  | ret (a : α)
  | exc (msg : S)

def extract_information (extracted_data : Val) (document_type : S) (st : St) :
    PyRes (List (S × Val)) × St :=
  let sid := "default".data
  match sessEntry st sid document_type with
  | some (Val.vDict m) =>
      match extracted_data with
      | Val.vDict d =>
          let merged := dUpdate m d
          (PyRes.ret merged, setSessEntry st sid document_type (Val.vDict merged))
      | _ => (PyRes.exc "TypeError: dict.update argument is not a mapping".data, st)
  | some _ => (PyRes.exc "AttributeError: stored entry has no update method".data, st)
  | none =>
      let st1 := setSessEntry st sid document_type (Val.vDict [])
      match extracted_data with
      | Val.vDict d =>
          let merged := dUpdate [] d
          (PyRes.ret merged, setSessEntry st1 sid document_type (Val.vDict merged))
      | _ => (PyRes.exc "TypeError: dict.update argument is not a mapping".data, st1)

/-!  generate_document (functions.py lines 142-493).

conversation_history is None for every call site in this repository
(app.py passes only two arguments), so the fallback extraction through a
second model call (lines 150-201) is never reached and is not modelled.
The template texts below are copied verbatim from the source f-strings. -/

def ndaSeg0 : S := "\nNON-DISCLOSURE AGREEMENT\n\nThis Non-Disclosure Agreement (\"Agreement\") is entered into on ".data
def ndaSeg1 : S := " (the \"Effective Date\") by and between:\n\nDISCLOSING PARTY: ".data
def ndaSeg2 : S := "\n(\"Disclosing Party\")\n\nRECEIVING PARTY: ".data
def ndaSeg3 : S := "\n(\"Receiving Party\")\n\nRECITALS\n\nWHEREAS, the Disclosing Party possesses certain confidential and proprietary information that it desires to disclose to the Receiving Party for the purpose of ".data
def ndaSeg4 : S := "; and\n\nWHEREAS, the Receiving Party agrees to receive and maintain such information in confidence;\n\nNOW, THEREFORE, in consideration of the mutual covenants and agreements contained herein, the parties agree as follows:\n\n1. DEFINITION OF CONFIDENTIAL INFORMATION\n\n\"Confidential Information\" means all non-public, proprietary, or confidential information disclosed by the Disclosing Party to the Receiving Party, whether orally, in writing, or in any other form, including but not limited to:\n\n(a) Technical data, know-how, research, product plans, products, services, customers, customer lists, markets, software, developments, inventions, processes, formulas, technology, designs, drawings, engineering, hardware configuration information, marketing, finances, or other business information;\n\n(b) Information that is marked, designated, or otherwise identified as \"confidential\" or \"proprietary\";\n\n(c) Information that, by its nature or the circumstances of its disclosure, would reasonably be understood to be confidential or proprietary.\n\nConfidential Information does not include information that:\n(i) Is or becomes publicly available through no breach of this Agreement by the Receiving Party;\n(ii) Was rightfully known by the Receiving Party prior to disclosure;\n(iii) Is rightfully received from a third party without breach of any confidentiality obligation;\n(iv) Is independently developed by the Receiving Party without use of or reference to the Confidential Information;\n(v) Is required to be disclosed by law or court order, provided the Receiving Party gives the Disclosing Party prompt notice and cooperates in any effort to obtain protective treatment.\n\n2. OBLIGATIONS OF RECEIVING PARTY\n\nThe Receiving Party agrees to:\n(a) Hold and maintain the Confidential Information in strict confidence;\n(b) Not disclose the Confidential Information to any third party without the prior written consent of the Disclosing Party;\n(c) Use the Confidential Information solely for the purpose of ".data
def ndaSeg5 : S := ";\n(d) Take reasonable precautions to protect the confidentiality of the Confidential Information, using at least the same degree of care it uses to protect its own confidential information, but in no event less than reasonable care;\n(e) Not make any copies of the Confidential Information except as necessary for the permitted use;\n(f) Immediately notify the Disclosing Party upon discovery of any unauthorized use or disclosure of Confidential Information.\n\n3. PERMITTED DISCLOSURES\n\nThe Receiving Party may disclose Confidential Information to its employees, officers, directors, advisors, and consultants who:\n(a) Have a need to know such information for the permitted purpose;\n(b) Are bound by confidentiality obligations at least as restrictive as those contained in this Agreement.\n\n4. RETURN OF MATERIALS\n\nUpon termination of this Agreement or upon written request by the Disclosing Party, the Receiving Party shall promptly return or destroy all documents, materials, and other tangible manifestations of Confidential Information and all copies thereof, and certify in writing that all such materials have been returned or destroyed. The Receiving Party may retain one copy for archival purposes, subject to the continuing obligations of confidentiality.\n\n5. TERM\n\nThis Agreement shall remain in effect for a period of ".data
def ndaSeg6 : S := " years from the Effective Date, unless terminated earlier by mutual written agreement of the parties. The obligations of confidentiality shall survive termination of this Agreement and shall continue for a period of ".data
def ndaSeg7 : S := " years after termination, or such longer period as may be required by law.\n\n6. NO LICENSE OR WARRANTY\n\nNothing in this Agreement grants the Receiving Party any right, title, or interest in or to any Confidential Information. All Confidential Information remains the property of the Disclosing Party. The Disclosing Party makes no representation or warranty as to the accuracy or completeness of any Confidential Information.\n\n7. REMEDIES\n\nThe Receiving Party acknowledges that any breach of this Agreement may cause irrepaable harm to the Disclosing Party for which monetary damages would be inadequate. Accordingly, the Disclosing Party shall be entitled to seek injunctive relief and other equitable remedies, in addition to any other remedies available at law or in equity.\n\n8. GOVERNING LAW AND JURISDICTION\n\nThis Agreement shall be governed by and construed in accordance with the laws of ".data
def ndaSeg8 : S := ", without regard to its conflict of law principles. Any disputes arising under or in connection with this Agreement shall be subject to the exclusive jurisdiction of the courts located in ".data
def ndaSeg9 : S := ".\n\n9. GENERAL PROVISIONS\n\n(a) This Agreement constitutes the entire agreement between the parties concerning the subject matter hereof and supersedes all prior agreements, understandings, negotiations, and discussions, whether oral or written.\n\n(b) This Agreement may not be amended except in writing signed by both parties.\n\n(c) If any provision of this Agreement is found to be unenforceable, the remainder of this Agreement shall remain in full force and effect.\n\n(d) This Agreement may not be assigned by either party without the prior written consent of the other party.\n\n(e) This Agreement may be executed in counterparts, each of which shall be deemed an original, but all of which together shall constitute one and the same instrument.\n\nIN WITNESS WHEREOF, the parties have executed this Agreement as of the Effective Date.\n\nDISCLOSING PARTY:                    RECEIVING PARTY:\n\n_________________________            _________________________\n".data
def ndaSeg10 : S := "                   ".data
def ndaSeg11 : S := "\n\nBy: _________________________        By: _________________________\n\nName: _______________________        Name: _______________________\n\nTitle: ______________________        Title: ______________________\n\nDate: _______________________        Date: _______________________\n\n".data

def ndaTemplate (eff dis rec pur term jur : S) : S :=
  ndaSeg0 ++ eff ++ ndaSeg1 ++ dis ++ ndaSeg2 ++ rec ++ ndaSeg3 ++ pur ++ ndaSeg4 ++ pur ++
  ndaSeg5 ++ term ++ ndaSeg6 ++ term ++ ndaSeg7 ++ jur ++ ndaSeg8 ++ jur ++ ndaSeg9 ++ dis ++
  ndaSeg10 ++ rec ++ ndaSeg11

def dirSeg0 : S := "\nRESOLUTION\n\nWHEREAS, the Board of Directors wishes to appoint a new director;\n\nNOW, THEREFORE, BE IT RESOLVED that ".data
def dirSeg1 : S := " is hereby appointed as a director of the Company, effective ".data
def dirSeg2 : S := ".\n\n".data
def dirTail : S := "\nThis resolution is effective immediately upon adoption by the Board of Directors.\n\n".data

def empSeg0 : S := "\nEMPLOYMENT AGREEMENT\n\nThis Employment Agreement is entered into between the Company and ".data
def empSeg1 : S := " (\"Employee\").\n\n1. POSITION\nEmployee shall serve as ".data
def empSeg2 : S := ", commencing on ".data
def empSeg3 : S := ".\n\n2. COMPENSATION\nEmployee shall receive an annual salary of ".data
def empSeg4 : S := ".\n\n3. TERM\nThis Agreement shall continue until terminated by either party in accordance with the terms herein.\n\n4. DUTIES\nEmployee agrees to perform all duties associated with the position and to devote full time and attention to the role.\n\n5. CONFIDENTIALITY\nEmployee agrees to maintain the confidentiality of all proprietary information.\n\nIN WITNESS WHEREOF, the parties have executed this Agreement.\n\n".data

def empTemplate (emp pos sd sal : S) : S :=
  empSeg0 ++ emp ++ empSeg1 ++ pos ++ empSeg2 ++ sd ++ empSeg3 ++ sal ++ empSeg4

def genericDoc : S := "\nTERMS AND CONDITIONS\n\n1. GENERAL PROVISIONS\nThis document sets forth the terms and conditions governing the relationship between the parties.\n\n2. OBLIGATIONS\nEach party agrees to fulfill their respective obligations as set forth herein.\n\n3. TERM AND TERMINATION\nThis agreement shall remain in effect until terminated in accordance with its terms.\n\n4. GOVERNING LAW\nThis agreement shall be governed by applicable law.\n\nIN WITNESS WHEREOF, the parties have executed this document.\n\n".data

/-- Python or-chain over aliases: the first truthy lookup wins, otherwise the
final default operand is returned as written. -/
def resolveChain (data : List (S × Val)) : List S → Val → Val
  | [], dflt => dflt
  | k :: rest, dflt =>
      let v := dget data k
      if truthy v then v else resolveChain data rest dflt

def ndaRender (merged : List (S × Val)) : S :=
  let dis := pyStr (resolveChain merged
    ["disclosing_party".data, "disclosing_party_name".data, "party1".data, "company_name".data]
    (Val.vStr "**Disclosing Party Name Missing**".data))
  let rec2 := pyStr (resolveChain merged
    ["receiving_party".data, "receiving_party_name".data, "party2".data, "recipient".data]
    (Val.vStr "**Receiving Party Name Missing**".data))
  let eff := pyStr (resolveChain merged
    ["effective_date".data, "date".data, "start_date".data]
    (Val.vStr "[EFFECTIVE DATE]".data))
  let term := pyStr (resolveChain merged
    ["term".data, "term_years".data, "duration".data, "period".data] (Val.vStr "0".data))
  let jur := pyStr (resolveChain merged
    ["jurisdiction".data, "state".data, "governing_law".data]
    (Val.vStr "[JURISDICTION/STATE]".data))
  let pur := pyStr (resolveChain merged
    ["purpose".data, "purpose_of_disclosure".data, "reason".data]
    (Val.vStr "**Purpose of Disclosure Missing**".data))
  ndaTemplate eff dis rec2 pur term jur

def committeeLines : List Val → S
  | [] => []
  | c :: rest => "- ".data ++ pyStr c ++ "\n".data ++ committeeLines rest

/-- Python iteration over a committees value: lists yield their items,
strings their characters, dicts their keys; other truthy values raise. -/
def iterVal : Val → Option (List Val)
  | Val.vList l => some l
  | Val.vStr s => some (s.map (fun c => Val.vStr [c]))
  | Val.vDict m => some (m.map (fun p => Val.vStr p.1))
  | _ => none

def dirRender (merged : List (S × Val)) : PyRes S :=
  let dn := pyStr (resolveChain merged ["director_name".data, "name".data]
    (Val.vStr "[DIRECTOR NAME]".data))
  let eff := pyStr (resolveChain merged ["effective_date".data, "date".data]
    (Val.vStr "[EFFECTIVE DATE]".data))
  let committees := (aget merged "committees".data).getD (Val.vList [])
  let base := dirSeg0 ++ dn ++ dirSeg1 ++ eff ++ dirSeg2
  if truthy committees then
    match iterVal committees with
    | none => PyRes.exc "TypeError: committees value is not iterable".data
    | some l =>
        PyRes.ret (base ++
          "FURTHER RESOLVED that the director shall serve on the following committees:\n".data ++
          committeeLines l ++ "\n".data ++ dirTail)
  else PyRes.ret (base ++ dirTail)

def empRender (merged : List (S × Val)) : S :=
  let emp := pyStr (resolveChain merged ["employee_name".data, "name".data]
    (Val.vStr "[EMPLOYEE NAME]".data))
  let pos := pyStr (resolveChain merged ["position".data, "title".data, "role".data]
    (Val.vStr "[POSITION]".data))
  let sd := pyStr (resolveChain merged
    ["start_date".data, "effective_date".data, "date".data] (Val.vStr "[START DATE]".data))
  let sal := pyStr (resolveChain merged ["salary".data, "compensation".data, "pay".data]
    (Val.vStr "[SALARY]".data))
  empTemplate emp pos sd sal

def noDataErr (dt : S) : S :=
  "ERROR: No data found for ".data ++ dt ++
  ". Please call extract_information first with all required fields.".data

inductive GenCat where
  | nda
  | director
  | employment
  | generic
deriving DecidableEq

/-- The template dispatch chain of generate_document, in its source order:
NDA, then director/appointment, then employment, then generic.  Note the
order differs from validate_required_fields, which checks employment before
director. -/
def genCat (dt : S) : GenCat :=
  if lcs dt = "nda".data || occursIn ("non-disclosure".data) (lcs dt) then GenCat.nda
  else if occursIn ("director".data) (lcs dt) || occursIn ("appointment".data) (lcs dt) then
    GenCat.director
  else if occursIn ("employment".data) (lcs dt) then GenCat.employment
  else GenCat.generic

/-- The body of generate_document after the merge step: the empty-data check,
validation, template dispatch and the store writes. -/
def genBody (dt document_id : S) (merged : List (S × Val)) (st : St) : PyRes S × St :=
  if merged.isEmpty || merged.all (fun p => !truthy p.2) then (PyRes.ret (noDataErr dt), st)
  else
    match validate_required_fields dt merged with
    | some err => (PyRes.ret err, st)
    | none =>
        let rendered : PyRes S :=
          match genCat dt with
          | GenCat.nda => PyRes.ret (ndaRender merged)
          | GenCat.director => dirRender merged
          | GenCat.employment => PyRes.ret (empRender merged)
          | GenCat.generic => PyRes.ret genericDoc
        match rendered with
        | PyRes.exc e => (PyRes.exc e, st)
        | PyRes.ret doc =>
            let st2 : St := { st with docs := aset st.docs document_id doc }
            let st3 := setSessEntry st2 ("default".data) ("current_document_id".data)
              (Val.vStr document_id)
            (PyRes.ret doc, st3)

def generate_document (document_type : S) (extracted_data : Val) (st : St) : PyRes S × St :=
  let sid := "default".data
  let document_id := document_type ++ "_".data ++ natLit st.docs.length
  match sessEntry st sid document_type with
  | some entry =>
      if truthy extracted_data then
        match entry, extracted_data with
        | Val.vDict m, Val.vDict d => genBody document_type document_id (dUpdate m d) st
        | _, _ => (PyRes.exc "TypeError: merge applied to a non-dict value".data, st)
      else
        match entry with
        | Val.vDict m => genBody document_type document_id m st
        | v =>
            if truthy v then (PyRes.exc "AttributeError: merged value has no values method".data, st)
            else (PyRes.ret (noDataErr document_type), st)
  | none =>
      let st1 := setSessEntry st sid document_type extracted_data
      match extracted_data with
      | Val.vDict m => genBody document_type document_id m st1
      | v =>
          if truthy v then
            (PyRes.exc "AttributeError: merged value has no values method".data, st1)
          else (PyRes.ret (noDataErr document_type), st1)

/-!  apply_edits (functions.py lines 496-606).

The function mutates its new_values argument in place (three pops), so the
model returns the final state of that dictionary alongside the result; when
a Python exception escapes, the dictionary and store mutations already
performed are kept. -/

def errNoDoc : S := "Error: No document found to edit. Please generate a document first.".data

def dateKeys : List S :=
  ["effective_date".data, "start_date".data, "date".data, "term".data, "term_years".data]

def termKeys : List S := ["term".data, "term_years".data]

def nameKeys : List S :=
  ["name".data, "director_name".data, "employee_name".data, "party_name".data,
   "disclosing_party".data, "receiving_party".data]

/-- The bracketed placeholder derived from a generic edit key. -/
def keyPlaceholder (key : S) : S :=
  '[' :: (key.map ucC).map (fun c => if c = ' ' then '_' else c) ++ ("]".data)

/-- The Field Missing sentinel derived from a generic edit key. -/
def keySentinel (key : S) : S :=
  "**".data ++ (titlePy key).map (fun c => if c = '_' then ' ' else c) ++ " Missing**".data

/-- The body of the keyed-substitution loop for one key/value pair. -/
def keyEdit (doc key : S) (v : Val) : PyRes S :=
  let sv := pyStr v
  if key ∈ dateKeys then
    if key ∈ termKeys then
      match periodFind doc with
      | some old =>
          let d1 := replaceFirstL ("period of ".data ++ old ++ " years".data)
            ("period of ".data ++ sv ++ " years".data) doc
          let d2 := replaceFirstL ("continue for a period of ".data ++ old ++ " years".data)
            ("continue for a period of ".data ++ sv ++ " years".data) d1
          PyRes.ret d2
      | none =>
          if templOk 1 sv then PyRes.ret (dateSub sv doc)
          else PyRes.exc "re.error: bad replacement template".data
    else
      if templOk 1 sv then PyRes.ret (dateSub sv doc)
      else PyRes.exc "re.error: bad replacement template".data
  else if key ∈ nameKeys then
    if templOk 0 sv then PyRes.ret (nameSub sv doc)
    else PyRes.exc "re.error: bad replacement template".data
  else
    PyRes.ret (replaceAll (keySentinel key) sv (replaceAll (keyPlaceholder key) sv doc))

def keyEdits (doc : S) : List (S × Val) → PyRes S
  | [] => PyRes.ret doc
  | (k, v) :: rest =>
      match keyEdit doc k v with
      | PyRes.exc e => PyRes.exc e
      | PyRes.ret d2 => keyEdits d2 rest

/-- The clause-insertion step driven by new_clause_text (lines 523-557). -/
def insertClause (doc txt : S) : PyRes S :=
  match gpFind doc with
  | some (matched, ds) =>
      let n := natOfDigits ds
      let sec := "\n\n".data ++ natLit n ++ ". **ADDITIONAL COVENANT**\n\n".data ++
        stripPy txt ++ "\n\n".data
      let replStr := sec ++ "\n\n".data ++ natLit (n + 1) ++ ". GENERAL PROVISIONS".data
      if templOk 0 replStr then PyRes.ret (subFirstCIT matched replStr doc)
      else PyRes.exc "re.error: bad replacement template".data
  | none =>
      PyRes.ret (replaceAll ("IN WITNESS WHEREOF".data)
        ("\n\n**NEW CLAUSE**\n\n".data ++ stripPy txt ++ "\n\nIN WITNESS WHEREOF".data) doc)

/-- The find/replace step (lines 560-574): escaped case-insensitive single
substitution; an invalid replacement template raises inside the try, and the
except branch falls back to a case-sensitive replace-all. -/
def frStep (doc f r : S) : S :=
  if templOk 0 r then subFirstCIT f r doc else replaceAll f r doc

/-- The clause-insertion step as driven by the popped new_clause_text value
(absent or falsy values skip it; a truthy non-string raises in Python). -/
def step1Of (v : Option Val) (doc : S) : PyRes S :=
  match v with
  | none => PyRes.ret doc
  | some v =>
      if truthy v then
        match v with
        | Val.vStr txt => insertClause doc txt
        | _ => PyRes.exc "AttributeError: value has no strip method".data
      else PyRes.ret doc

/-- The find/replace step as driven by the popped pair (both must be truthy
strings for the substitution to run; truthy non-strings raise). -/
def step2Of (fv rv : Option Val) (doc : S) : PyRes S :=
  match fv, rv with
  | some f, some r =>
      if truthy f && truthy r then
        match f, r with
        | Val.vStr fs, Val.vStr rs => PyRes.ret (frStep doc fs rs)
        | _, _ => PyRes.exc "TypeError: find/replace values must be strings".data
      else PyRes.ret doc
  | _, _ => PyRes.ret doc

/-- The edit pipeline once a document has been resolved: the three pops with
their steps, the keyed-substitution loop, and the store write-back. -/
def editSteps (nv : List (S × Val)) (dId currentDoc : S) (st : St) :
    PyRes S × List (S × Val) × St :=
  let p1 := apop nv ("new_clause_text".data)
  match step1Of p1.1 currentDoc with
  | PyRes.exc e => (PyRes.exc e, p1.2, st)
  | PyRes.ret doc1 =>
      let p2 := apop p1.2 ("text_to_find".data)
      let p3 := apop p2.2 ("replacement_text".data)
      match step2Of p2.1 p3.1 doc1 with
      | PyRes.exc e => (PyRes.exc e, p3.2, st)
      | PyRes.ret doc2 =>
          match keyEdits doc2 p3.2 with
          | PyRes.exc e => (PyRes.exc e, p3.2, st)
          | PyRes.ret doc3 =>
              (PyRes.ret doc3, p3.2, { st with docs := aset st.docs dId doc3 })

/-- The resolution of the document_id argument to the Python variable value
before the existence check (lines 504-512). -/
def resolveDocId (document_id : Option S) (st : St) : Val :=
  if document_id = some ("current".data) || document_id = none || document_id = some [] then
    match sessEntry st ("default".data) ("current_document_id".data) with
    | some v => v
    | none =>
        match (st.docs.map Prod.fst).getLast? with
        | some k => Val.vStr k
        | none => Val.vNone
  else
    match document_id with
    | some d => Val.vStr d
    | none => Val.vNone

/-- The existence check on the resolved id (line 514): a falsy id or an
unknown key is the no-document outcome, a truthy unhashable value raises. -/
def lookupDoc (rv : Val) (st : St) : PyRes (Option (S × S)) :=
  match rv with
  | Val.vNone => PyRes.ret none
  | Val.vNum _ => PyRes.ret none
  | Val.vStr d =>
      if d = [] then PyRes.ret none
      else PyRes.ret ((aget st.docs d).map (fun doc => (d, doc)))
  | Val.vList l =>
      if l.isEmpty then PyRes.ret none
      else PyRes.exc "TypeError: unhashable document id".data
  | Val.vDict m =>
      if m.isEmpty then PyRes.ret none
      else PyRes.exc "TypeError: unhashable document id".data

def apply_edits (edit_description : S) (new_values : List (S × Val))
    (document_id : Option S) (st : St) : PyRes S × List (S × Val) × St :=
  match lookupDoc (resolveDocId document_id st) st with
  | PyRes.exc e => (PyRes.exc e, new_values, st)
  | PyRes.ret none => (PyRes.ret errNoDoc, new_values, st)
  | PyRes.ret (some (dId, currentDoc)) => editSteps new_values dId currentDoc st

/-!  The streaming tool-call orchestration of app.py (the generate() closure
inside the chat endpoint, lines 130-324).

A model stream is a finite list of chunks; each chunk optionally carries
content, tool-call deltas and the finish signal.  Events are modelled by
their type discriminator and primary payload; the SSE framing and the JSON
payload details are not load-bearing for any claim.  JSON parsing of the
accumulated argument buffer is abstracted by a `parse` parameter (the
orchestrator only ever inspects the parsed top-level object), and the
follow-up model streams are abstracted by an oracle `fo` giving the content
fragments of the n-th follow-up call of the turn; the source reads only the
plain content of follow-up chunks, so this loses nothing.  Dispatch
exceptions are caught at the turn boundary and become error events, with the
store mutations already performed kept, as module state survives the except
branches in the source. -/

inductive Ev where
  | content (s : S)
  | fnCall (name : S)
  | fnResult (name : S)
  | document (s : S)
  | errEv (msg : S)
  | done
deriving DecidableEq

structure Accum where
  tid : S
  fname : S
  fargs : S
deriving DecidableEq

structure Delta where
  tid : Option S
  dname : Option S
  dargs : Option S
deriving DecidableEq

structure Chunk where
  content : Option S
  tcs : List Delta
  finishToolCalls : Bool
deriving DecidableEq

inductive Msg where
  | userM (s : S)
  | assistantM (s : S)
  | assistantToolM (a : Accum)
  | toolM (tid : S) (note : S)

structure LoopSt where
  fullResponse : S
  acc : Option Accum
  st : St
  hist : List Msg
  fuIdx : Nat

/-- Process one tool-call delta (app.py lines 154-172): create the
accumulator on first sight, record a name fragment with its event, append
argument fragments. -/
def procDelta (p : Option Accum × List Ev) (d : Delta) : Option Accum × List Ev :=
  let a := match p.1 with
    | some a0 => a0
    | none => { tid := d.tid.getD [], fname := [], fargs := [] }
  let step1 : Accum × List Ev := match d.dname with
    | some n => ({ a with fname := n }, p.2 ++ [Ev.fnCall n])
    | none => (a, p.2)
  let a2 := match d.dargs with
    | some ar => { step1.1 with fargs := step1.1.fargs ++ ar }
    | none => step1.1
  (some a2, step1.2)

def concatS : List S → S
  | [] => []
  | x :: r => x ++ concatS r

/-- History bookkeeping after a successful dispatch: the assistant tool-call
message and the tool result message, then the follow-up text if nonempty. -/
def histAfter (hist : List Msg) (a : Accum) (note : S) (fu : List S) : List Msg :=
  let h1 := hist ++ [Msg.assistantToolM a, Msg.toolM a.tid note]
  if concatS fu = [] then h1 else h1 ++ [Msg.assistantM (concatS fu)]

/-- Value of an argument key as the Option the source sees through dict.get. -/
def argOpt (pv : List (S × Val)) (k : S) : Option Val := aget pv k

/-- Dispatch one completed tool call by name (app.py lines 180-307).  The
document_id argument of apply_edits is typed str-or-absent in the tool
schema; other value shapes are collapsed to their string form here. -/
def dispatchCall (fo : Nat → List S) (a : Accum) (pv : List (S × Val)) (σ : LoopSt) :
    List Ev × LoopSt :=
  if a.fname = "extract_information".data then
    let ed := (argOpt pv ("extracted_data".data)).getD (Val.vDict [])
    let dt := match argOpt pv ("document_type".data) with
      | none => "Unknown".data
      | some (Val.vStr s) => s
      | some v => pyStr v
    let r := extract_information ed dt σ.st
    match r.1 with
    | PyRes.exc m => ([Ev.errEv m], { σ with st := r.2 })
    | PyRes.ret _ =>
        let fu := fo σ.fuIdx
        ([Ev.fnResult a.fname] ++ fu.map Ev.content,
         { σ with st := r.2, hist := histAfter σ.hist a ("extract result".data) fu,
                  fuIdx := σ.fuIdx + 1 })
  else if a.fname = "generate_document".data then
    let ed := (argOpt pv ("extracted_data".data)).getD (Val.vDict [])
    let dt := match argOpt pv ("document_type".data) with
      | none => "Unknown".data
      | some (Val.vStr s) => s
      | some v => pyStr v
    let r := generate_document dt ed σ.st
    match r.1 with
    | PyRes.exc m => ([Ev.errEv m], { σ with st := r.2 })
    | PyRes.ret doc =>
        let fu := fo σ.fuIdx
        ([Ev.fnResult a.fname, Ev.document doc] ++ fu.map Ev.content,
         { σ with st := r.2, hist := histAfter σ.hist a doc fu, fuIdx := σ.fuIdx + 1 })
  else if a.fname = "apply_edits".data then
    let ds := match argOpt pv ("edit_description".data) with
      | some (Val.vStr s) => s
      | _ => []
    let nvv := (argOpt pv ("new_values".data)).getD (Val.vDict [])
    let dIdOpt := match argOpt pv ("document_id".data) with
      | some (Val.vStr s) => some s
      | some Val.vNone => none
      | none => none
      | some v => some (pyStr v)
    match nvv with
    | Val.vDict nv =>
        let r := apply_edits ds nv dIdOpt σ.st
        match r.1 with
        | PyRes.exc m => ([Ev.errEv m], { σ with st := r.2.2 })
        | PyRes.ret doc =>
            let fu := fo σ.fuIdx
            ([Ev.fnResult a.fname, Ev.document doc] ++ fu.map Ev.content,
             { σ with st := r.2.2, hist := histAfter σ.hist a doc fu, fuIdx := σ.fuIdx + 1 })
    | _ => ([Ev.errEv "AttributeError: new_values has no pop method".data], σ)
  else ([], σ)

/-- Process one stream chunk: content event, delta accumulation, and on the
terminal signal the parse / dispatch / reset sequence with its error
handling (app.py lines 147-315). -/
def stepChunk (parse : S → Option Val) (fo : Nat → List S) (σ : LoopSt) (c : Chunk) :
    List Ev × LoopSt :=
  let cEvs : List Ev := match c.content with
    | some s => [Ev.content s]
    | none => []
  let fr : S := match c.content with
    | some s => σ.fullResponse ++ s
    | none => σ.fullResponse
  let pd := c.tcs.foldl procDelta (σ.acc, [])
  let σ1 : LoopSt := { σ with fullResponse := fr, acc := pd.1 }
  if c.finishToolCalls then
    match pd.1 with
    | some a =>
        let dPair : List Ev × LoopSt :=
          match parse a.fargs with
          | none => ([Ev.errEv "Error parsing function arguments".data], σ1)
          | some (Val.vDict m) => dispatchCall fo a m σ1
          | some _ =>
              ([Ev.errEv "Error executing function: arguments not an object".data], σ1)
        (cEvs ++ pd.2 ++ dPair.1, { dPair.2 with acc := none })
    | none => (cEvs ++ pd.2, σ1)
  else (cEvs ++ pd.2, σ1)

/-- One whole streamed turn: fold the chunks, finalize a plain assistant
response, and emit the terminal sentinel (app.py lines 317-320). -/
def runTurn (parse : S → Option Val) (fo : Nat → List S) (chunks : List Chunk)
    (σ0 : LoopSt) : List Ev × LoopSt :=
  let r := chunks.foldl
    (fun p c =>
      let q := stepChunk parse fo p.2 c
      (p.1 ++ q.1, q.2)) (([] : List Ev), σ0)
  let σF :=
    if r.2.fullResponse ≠ [] ∧ r.2.acc = none then
      { r.2 with hist := r.2.hist ++ [Msg.assistantM r.2.fullResponse] }
    else r.2
  (r.1 ++ [Ev.done], σF)

/-!  General lemmas about the string primitives. -/

theorem startsWithL_self_append (t r : S) : startsWithL t (t ++ r) = true := by
  induction t with
  | nil => rfl
  | cons c t ih => simp [startsWithL, ih]

theorem ciStartsWith_self_append (t r : S) : ciStartsWith t (t ++ r) = true := by
  induction t with
  | nil => rfl
  | cons c t ih => simp [ciStartsWith, ih]

theorem startsWithL_nil_iff (t : S) : startsWithL t [] = true ↔ t = [] := by
  cases t <;> simp [startsWithL]

theorem startsWithL_append_indep (P a z : S) (h : P.length ≤ a.length) :
    startsWithL P (a ++ z) = startsWithL P a := by
  induction P generalizing a with
  | nil => simp [startsWithL]
  | cons c P ih =>
      cases a with
      | nil => simp at h
      | cons d a =>
          simp only [List.cons_append, startsWithL, List.append_eq]
          rw [ih]
          simpa using Nat.le_of_succ_le_succ h

theorem startsWith_take_of (P a b : S) (h : startsWithL P (a ++ b) = true) :
    startsWithL (P.take a.length) a = true := by
  induction a generalizing P with
  | nil => simp [startsWithL]
  | cons d a ih =>
      cases P with
      | nil => simp [startsWithL]
      | cons c P =>
          simp only [List.cons_append, startsWithL, List.append_eq, Bool.and_eq_true,
            decide_eq_true_eq] at h
          simp only [List.length_cons, List.take_succ_cons, startsWithL, Bool.and_eq_true,
            decide_eq_true_eq]
          exact ⟨h.1, ih P h.2⟩

theorem startsWith_drop_of (P a b : S) (h : startsWithL P (a ++ b) = true)
    (hl : a.length < P.length) : startsWithL (P.drop a.length) b = true := by
  induction a generalizing P with
  | nil => simpa using h
  | cons d a ih =>
      cases P with
      | nil => simp at hl
      | cons c P =>
          simp only [List.cons_append, startsWithL, List.append_eq, Bool.and_eq_true] at h
          simp only [List.length_cons, List.drop_succ_cons]
          exact ih P h.2 (Nat.lt_of_succ_lt_succ hl)

theorem replaceFirstL_split (t r pre post : S)
    (h : ∀ i, i < pre.length → startsWithL t ((pre ++ t ++ post).drop i) = false) :
    replaceFirstL t r (pre ++ t ++ post) = pre ++ r ++ post := by
  induction pre with
  | nil =>
      simp only [List.nil_append]
      cases t with
      | nil =>
          cases post with
          | nil => simp [replaceFirstL, startsWithL]
          | cons c cs => simp [replaceFirstL, startsWithL]
      | cons c t =>
          have hs := startsWithL_self_append (c :: t) post
          have hd : ((c :: t) ++ post).drop (c :: t).length = post := List.drop_left (c :: t) post
          simp only [List.cons_append] at hs hd
          simp only [List.cons_append, replaceFirstL, List.append_eq, hs, if_pos, hd]
  | cons d pre ih =>
      have h0 := h 0 (Nat.succ_pos _)
      simp only [List.cons_append, List.drop_zero] at h0
      have ih2 := ih (fun i hi => by
        have := h (i + 1) (Nat.succ_lt_succ hi)
        simpa [List.cons_append] using this)
      simp only [List.cons_append, replaceFirstL, List.append_eq, h0, Bool.false_eq_true,
        if_false, ih2]

theorem subFirstCIT_split (t rT pre post : S)
    (h : ∀ i, i < pre.length → ciStartsWith t ((pre ++ t ++ post).drop i) = false) :
    subFirstCIT t rT (pre ++ t ++ post) = pre ++ templExpand 0 t rT ++ post := by
  induction pre with
  | nil =>
      simp only [List.nil_append]
      cases t with
      | nil =>
          cases post with
          | nil => simp [subFirstCIT, ciStartsWith, templExpand, templGo, templGoF]
          | cons c cs => simp [subFirstCIT, ciStartsWith]
      | cons c t =>
          have hs := ciStartsWith_self_append (c :: t) post
          have hd : ((c :: t) ++ post).drop (c :: t).length = post := List.drop_left (c :: t) post
          have htk : ((c :: t) ++ post).take (c :: t).length = c :: t := List.take_left (c :: t) post
          simp only [List.cons_append] at hs hd htk
          simp only [List.cons_append, subFirstCIT, List.append_eq, hs, if_pos, hd, htk]
  | cons d pre ih =>
      have h0 := h 0 (Nat.succ_pos _)
      simp only [List.cons_append, List.drop_zero] at h0
      have ih2 := ih (fun i hi => by
        have := h (i + 1) (Nat.succ_lt_succ hi)
        simpa [List.cons_append] using this)
      simp only [List.cons_append, subFirstCIT, List.append_eq, h0, Bool.false_eq_true,
        if_false, ih2]

theorem occursIn_cons_false (t : S) (c : Char) (rest : S) (h : occursIn t (c :: rest) = false) :
    startsWithL t (c :: rest) = false ∧ occursIn t rest = false := by
  simp only [occursIn, Bool.or_eq_false_iff] at h
  exact h

theorem raGo_id (t r : S) (f : Nat) (s : S) (h : occursIn t s = false) : raGo t r f s = s := by
  induction f generalizing s with
  | zero => cases s <;> rfl
  | succ f ih =>
      cases s with
      | nil => rfl
      | cons c rest =>
          obtain ⟨h1, h2⟩ := occursIn_cons_false t c rest h
          simp [raGo, h1, ih rest h2]

theorem raGo_split (t r pre post : S) (f : Nat) (ht : t ≠ [])
    (hf : (pre ++ t ++ post).length ≤ f)
    (h : ∀ i, i < pre.length → startsWithL t ((pre ++ t ++ post).drop i) = false)
    (h2 : occursIn t post = false) :
    raGo t r f (pre ++ t ++ post) = pre ++ r ++ post := by
  induction pre generalizing f with
  | nil =>
      simp only [List.nil_append] at *
      cases t with
      | nil => exact absurd rfl ht
      | cons c t =>
          cases f with
          | zero => simp at hf
          | succ f =>
              have hs := startsWithL_self_append (c :: t) post
              have hd : ((c :: t) ++ post).drop (c :: t).length = post := List.drop_left (c :: t) post
              simp only [List.cons_append] at hs hd
              have hid := raGo_id (c :: t) r f post h2
              simp only [List.cons_append, raGo, List.append_eq, hs, if_pos, hd, hid]
  | cons d pre ih =>
      cases f with
      | zero => simp at hf
      | succ f =>
          have h0 := h 0 (Nat.succ_pos _)
          simp only [List.cons_append, List.drop_zero] at h0
          have ih2 := ih f (by simpa [List.cons_append] using Nat.le_of_succ_le_succ hf)
            (fun i hi => by
              have := h (i + 1) (Nat.succ_lt_succ hi)
              simpa [List.cons_append] using this)
          simp only [List.cons_append, raGo, List.append_eq, h0, Bool.false_eq_true,
            if_false, ih2]


theorem takeWhile_all_app (p : Char → Bool) (xs ys : S) (h : ∀ c ∈ xs, p c = true) :
    (xs ++ ys).takeWhile p = xs ++ ys.takeWhile p := by
  induction xs with
  | nil => simp
  | cons c xs ih =>
      have hc := h c (List.mem_cons_self c xs)
      simp only [List.cons_append, List.takeWhile_cons, hc, if_true]
      rw [ih (fun d hd => h d (List.mem_cons_of_mem c hd))]

theorem dropWhile_all_app (p : Char → Bool) (xs ys : S) (h : ∀ c ∈ xs, p c = true) :
    (xs ++ ys).dropWhile p = ys.dropWhile p := by
  induction xs with
  | nil => simp
  | cons c xs ih =>
      have hc := h c (List.mem_cons_self c xs)
      simp only [List.cons_append, List.dropWhile_cons, hc, if_true]
      exact ih (fun d hd => h d (List.mem_cons_of_mem c hd))

theorem chewCI_self_append (t r : S) : chewCI t (t ++ r) = some (t, r) := by
  induction t with
  | nil => rfl
  | cons c t ih => simp [chewCI, ih]

theorem chewLit_self_append (t r : S) : chewLit t (t ++ r) = some r := by
  induction t with
  | nil => rfl
  | cons c t ih => simp [chewLit, ih]

/-- Digit characters produced from code points 48-57. -/
theorem isDigitC_ofNat (k : Nat) (h1 : 48 ≤ k) (h2 : k ≤ 57) : isDigitC (Char.ofNat k) = true := by
  interval_cases k <;> decide

/-- Every character the decimal printer produces is a digit. -/
theorem natLitGo_digits (f n : Nat) : ∀ c ∈ natLitGo f n, isDigitC c = true := by
  induction f generalizing n with
  | zero => intro c hc; simp [natLitGo] at hc
  | succ f ih =>
      intro c hc
      by_cases hn : n < 10
      · simp only [natLitGo, hn, if_true, List.mem_singleton] at hc
        subst hc
        exact isDigitC_ofNat (48 + n) (by omega) (by omega)
      · simp only [natLitGo, hn, if_false, List.mem_append, List.mem_singleton] at hc
        rcases hc with hc | hc
        · exact ih (n / 10) c hc
        · subst hc
          have h9 : n % 10 ≤ 9 := Nat.le_of_lt_succ (Nat.mod_lt n (by norm_num))
          exact isDigitC_ofNat (48 + n % 10) (by omega) (by omega)

theorem natLit_digits (n : Nat) : ∀ c ∈ natLit n, isDigitC c = true :=
  natLitGo_digits (n + 1) n

def hasBackslash (s : S) : Bool := s.any (fun c => decide (c = '\\'))

/-- A template without backslashes parses to itself. -/
theorem templGoF_no_bs (g : Nat) (m : S) (f : Nat) (s : S) (hf : s.length ≤ f)
    (h : hasBackslash s = false) : templGoF g m f s = some s := by
  induction f generalizing s with
  | zero =>
      cases s with
      | nil => rfl
      | cons c rest => simp at hf
  | succ f ih =>
      cases s with
      | nil => rfl
      | cons c rest =>
          simp only [hasBackslash, List.any_cons, Bool.or_eq_false_iff,
            decide_eq_false_iff_not] at h
          simp only [templGoF, if_neg h.1]
          rw [ih rest (by simpa using Nat.le_of_succ_le_succ hf)]
          · rfl
          · simpa [hasBackslash] using h.2

theorem templGo_no_bs (g : Nat) (m s : S) (h : hasBackslash s = false) : templGo g m s = some s :=
  templGoF_no_bs g m s.length s (Nat.le_refl _) h

theorem templOk_no_bs (g : Nat) (s : S) (h : hasBackslash s = false) : templOk g s = true := by
  simp [templOk, templGo_no_bs g [] s h]

theorem templExpand_no_bs (g : Nat) (m s : S) (h : hasBackslash s = false) :
    templExpand g m s = s := by
  simp [templExpand, templGo_no_bs g m s h]

/-!  Scanner lemmas. -/

theorem gpFind_cons (c : Char) (l : S) :
    gpFind (c :: l) =
      (match gpParseAt (c :: l) with
        | some r => some r
        | none => gpFind l) := rfl

theorem gpFind_skip (pre rest : S)
    (h : ∀ i, i < pre.length → gpParseAt ((pre ++ rest).drop i) = none) :
    gpFind (pre ++ rest) = gpFind rest := by
  induction pre with
  | nil => rfl
  | cons c pre ih =>
      have h0 := h 0 (Nat.succ_pos _)
      simp only [List.cons_append, List.drop_zero] at h0
      have ih2 := ih (fun i hi => by
        have := h (i + 1) (Nat.succ_lt_succ hi)
        simpa [List.cons_append] using this)
      rw [List.cons_append, gpFind_cons, h0]
      exact ih2

theorem periodFind_cons (c : Char) (l : S) :
    periodFind (c :: l) =
      (match periodParseAt (c :: l) with
        | some ds => some ds
        | none => periodFind l) := rfl

theorem periodFind_skip (pre rest : S)
    (h : ∀ i, i < pre.length → periodParseAt ((pre ++ rest).drop i) = none) :
    periodFind (pre ++ rest) = periodFind rest := by
  induction pre with
  | nil => rfl
  | cons c pre ih =>
      have h0 := h 0 (Nat.succ_pos _)
      simp only [List.cons_append, List.drop_zero] at h0
      have ih2 := ih (fun i hi => by
        have := h (i + 1) (Nat.succ_lt_succ hi)
        simpa [List.cons_append] using this)
      rw [List.cons_append, periodFind_cons, h0]
      exact ih2

theorem dateSubGo_id (v : S) (prev : Option Char) (s : S) (h : dateHasGo prev s = false) :
    dateSubGo v prev s = s := by
  induction s generalizing prev with
  | nil => rfl
  | cons c rest ih =>
      simp only [dateHasGo, Bool.or_eq_false_iff] at h
      obtain ⟨h1, h2⟩ := h
      have h1' : dateParseAt prev (c :: rest) = none := by
        cases hd : dateParseAt prev (c :: rest) with
        | none => rfl
        | some n => rw [hd] at h1; simp at h1
      simp [dateSubGo, h1', ih (some c) h2]

theorem nameSubGo_id (v : S) (f : Nat) (s : S) (h : nameHas s = false) : nameSubGo v f s = s := by
  induction f generalizing s with
  | zero => cases s <;> rfl
  | succ f ih =>
      cases s with
      | nil => rfl
      | cons c rest =>
          simp only [nameHas, Bool.or_eq_false_iff] at h
          obtain ⟨h1, h2⟩ := h
          have h1' : nameParseAt (c :: rest) = none := by
            cases hd : nameParseAt (c :: rest) with
            | none => rfl
            | some n => rw [hd] at h1; simp at h1
          simp [nameSubGo, h1', ih rest h2]

/-!  Association-list and dictionary lemmas. -/

theorem aget_aset_self {α : Type} (m : List (S × α)) (k : S) (v : α) :
    aget (aset m k v) k = some v := by
  induction m with
  | nil => simp [aset, aget]
  | cons p m ih =>
      obtain ⟨k2, v2⟩ := p
      by_cases h : k2 = k
      · simp [aset, aget, h]
      · simp [aset, aget, h, ih]

theorem aget_aset_ne {α : Type} (m : List (S × α)) (k k2 : S) (v : α) (h : k2 ≠ k) :
    aget (aset m k v) k2 = aget m k2 := by
  induction m with
  | nil =>
      have : k ≠ k2 := fun hh => h hh.symm
      simp [aset, aget, this]
  | cons p m ih =>
      obtain ⟨ka, va⟩ := p
      by_cases hk : ka = k
      · subst hk
        have : ka ≠ k2 := fun hh => h hh.symm
        simp [aset, aget, this]
      · simp only [aset, hk, if_false]
        by_cases h2 : ka = k2
        · simp [aget, h2]
        · simp [aget, h2, ih]

/-- The last binding of a key in a list of updates (the one a dict ends with). -/
def blast (b : List (S × Val)) (k : S) : Option Val :=
  match b with
  | [] => none
  | p :: rest =>
      match blast rest k with
      | some v => some v
      | none => if p.1 = k then some p.2 else none

theorem aget_dUpdate (a b : List (S × Val)) (k : S) :
    aget (dUpdate a b) k =
      match blast b k with
      | some v => some v
      | none => aget a k := by
  induction b generalizing a with
  | nil => simp [dUpdate, blast]
  | cons p rest ih =>
      obtain ⟨kb, vb⟩ := p
      show aget (dUpdate (aset a kb vb) rest) k = _
      rw [ih]
      cases hbl : blast rest k with
      | some v => simp [blast, hbl]
      | none =>
          simp only [blast, hbl]
          by_cases hk : kb = k
          · subst hk
            simp [aget_aset_self]
          · have hne : k ≠ kb := fun hh => hk hh.symm
            simp [hk, aget_aset_ne a kb k vb hne]

theorem mem_keys_of_aget {α : Type} (m : List (S × α)) (k : S) (w : α) (h : aget m k = some w) :
    k ∈ m.map Prod.fst := by
  induction m with
  | nil => simp [aget] at h
  | cons p rest ih =>
      obtain ⟨kp, vp⟩ := p
      simp only [aget] at h
      by_cases hk : kp = k
      · subst hk
        simp only [List.map_cons]
        exact List.mem_cons_self _ _
      · simp only [hk, if_false] at h
        simp only [List.map_cons]
        exact List.mem_cons_of_mem _ (ih h)

theorem blast_eq_aget_of_nodup (b : List (S × Val)) (hb : (b.map Prod.fst).Nodup) (k : S) :
    blast b k = aget b k := by
  induction b with
  | nil => rfl
  | cons p rest ih =>
      obtain ⟨kb, vb⟩ := p
      simp only [List.map_cons, List.nodup_cons] at hb
      obtain ⟨hnot, hnd⟩ := hb
      by_cases hk : kb = k
      · subst hk
        have hrest : blast rest kb = none := by
          rw [ih hnd]
          cases hg : aget rest kb with
          | none => rfl
          | some w => exact absurd (mem_keys_of_aget rest kb w hg) hnot
        simp [blast, hrest, aget]
      · simp only [blast, aget, hk, if_false, ih hnd]
        cases aget rest k <;> rfl

/-- Updating a dictionary with unique-keyed new data: the new binding wins
where present, other keys keep their old value. -/
theorem aget_dUpdate_nodup (a b : List (S × Val)) (hb : (b.map Prod.fst).Nodup) (k : S) :
    aget (dUpdate a b) k =
      match aget b k with
      | some v => some v
      | none => aget a k := by
  rw [aget_dUpdate, blast_eq_aget_of_nodup b hb]

/-!  Computation of the clause-heading matcher on a canonical header. -/

theorem gpParseAt_header (ds post : S) (h1 : ds ≠ []) (h2 : ∀ c ∈ ds, isDigitC c = true) :
    gpParseAt (ds ++ ". GENERAL PROVISIONS".data ++ post) =
      some (ds ++ ". GENERAL PROVISIONS".data, ds) := by
  rw [List.append_assoc]
  have htw : (ds ++ (". GENERAL PROVISIONS".data ++ post)).takeWhile (fun c => isDigitC c) = ds := by
    rw [takeWhile_all_app _ _ _ h2,
      show ((". GENERAL PROVISIONS".data ++ post : S)).takeWhile (fun c => isDigitC c) = [] from rfl,
      List.append_nil]
  have hdw : (ds ++ (". GENERAL PROVISIONS".data ++ post)).dropWhile (fun c => isDigitC c) =
      ". GENERAL PROVISIONS".data ++ post := by
    rw [dropWhile_all_app _ _ _ h2]
    rfl
  simp only [gpParseAt, htw, hdw, if_neg h1]
  rfl

/-!  Claim C1. -/

theorem startsWith_ERROR_append (A tail : S)
    (h : startsWithL ("ERROR:".data) A = true)
    (hl : ("ERROR:".data : S).length ≤ A.length) :
    startsWithL ("ERROR:".data) (A ++ tail) = true := by
  rw [startsWithL_append_indep _ _ _ hl]
  exact h

theorem mem_missingOf (dt : S) (data : List (S × Val)) (p : S × List S)
    (hp : p ∈ requiredFields dt) (h : ∀ a ∈ p.2, truthy (dget data a) = false) :
    p.1 ∈ missingOf dt data := by
  unfold missingOf
  apply List.mem_filterMap.mpr
  refine ⟨p, hp, ?_⟩
  have hany : p.2.any (fun a => truthy (dget data a)) = false := by
    rw [List.any_eq_false]
    intro a ha
    simp [h a ha]
  simp [hany]

/-- C1: for a document type with required fields, when some required canonical
field has no truthy value under any alias (the merge being the data itself,
there being no prior extracted data for the type), generate_document returns
an error string, stores no document, and the error is precisely the
structured missing-fields message whenever the data has any truthy value at
all. -/
theorem c1_validation_blocks_generation (dt : S) (data : List (S × Val)) (st : St)
    (hsess : sessEntry st ("default".data) dt = none)
    (hmiss : ∃ p ∈ requiredFields dt, ∀ a ∈ p.2, truthy (dget data a) = false) :
    ∃ msg st2,
      generate_document dt (Val.vDict data) st = (PyRes.ret msg, st2) ∧
      st2.docs = st.docs ∧
      startsWithL ("ERROR:".data) msg = true ∧
      (data.all (fun p => !truthy p.2) = false → msg = missingErr dt (missingOf dt data)) := by
  obtain ⟨p, hp, hfal⟩ := hmiss
  have hdocs1 : (setSessEntry st ("default".data) dt (Val.vDict data)).docs = st.docs := rfl
  by_cases hA : (data.isEmpty || data.all (fun q => !truthy q.2)) = true
  · refine ⟨noDataErr dt, setSessEntry st ("default".data) dt (Val.vDict data), ?_, hdocs1, ?_, ?_⟩
    · simp only [generate_document, hsess, genBody, hA, if_true]
    · unfold noDataErr
      simp only [List.append_assoc]
      exact startsWith_ERROR_append ("ERROR: No data found for ".data) _ (by decide) (by decide)
    · intro hall
      rcases Bool.or_eq_true_iff.mp hA with hE | hT
      · have : data = [] := List.isEmpty_iff.mp hE
        subst this
        simp at hall
      · exact absurd hT (by simp [hall])
  · have hmne : missingOf dt data ≠ [] :=
      List.ne_nil_of_mem (mem_missingOf dt data p hp hfal)
    have hval : validate_required_fields dt data = some (missingErr dt (missingOf dt data)) := by
      unfold validate_required_fields
      rw [if_neg hmne]
    refine ⟨missingErr dt (missingOf dt data),
      setSessEntry st ("default".data) dt (Val.vDict data), ?_, hdocs1, ?_, fun _ => rfl⟩
    · simp only [generate_document, hsess, genBody, hA, if_false, Bool.false_eq_true, hval]
    · unfold missingErr
      simp only [List.append_assoc]
      exact startsWith_ERROR_append ("ERROR: Missing required fields for ".data) _
        (by decide) (by decide)

/-- Witness for C1 at the concrete scenario-D input: empty data, empty store,
document type NDA. -/
theorem c1_witness :
    ∃ msg st2,
      generate_document ("NDA".data) (Val.vDict []) emptySt = (PyRes.ret msg, st2) ∧
      st2.docs = emptySt.docs ∧
      startsWithL ("ERROR:".data) msg = true ∧
      (([] : List (S × Val)).all (fun p => !truthy p.2) = false →
        msg = missingErr ("NDA".data) (missingOf ("NDA".data) [])) :=
  c1_validation_blocks_generation ("NDA".data) [] emptySt rfl
    ⟨("disclosing_party".data,
      ["disclosing_party".data, "disclosing_party_name".data, "party1".data, "company_name".data]),
      by decide, by decide⟩

/-!  Claim C6. -/

/-- C6 counterexample: the document type Standard contains nda
case-insensitively, yet generate_document renders the Generic template for
it, not the NDA template — NDA selection is an exact lowercase match on nda
(or a non-disclosure substring), not a substring match. -/
theorem c6_counterexample :
    occursIn ("nda".data) (lcs ("Standard".data)) = true ∧
    (generate_document ("Standard".data) (Val.vDict [("x".data, Val.vStr "y".data)]) emptySt).1 =
      PyRes.ret genericDoc ∧
    occursIn ("NON-DISCLOSURE AGREEMENT".data) genericDoc = false := by
  refine ⟨by decide, rfl, by decide⟩

/-- C6 amended: generate_document selects the NDA template exactly when the
lowercased type equals nda or contains non-disclosure; a type matching none
of the category tests (nda equality, non-disclosure, director, appointment,
employment substrings) falls through to the Generic template. -/
theorem c6_template_selection (dt : S) (data : List (S × Val)) (st : St)
    (hsess : sessEntry st ("default".data) dt = none)
    (hne : data.all (fun p => !truthy p.2) = false)
    (hval : validate_required_fields dt data = none) :
    ((lcs dt = "nda".data ∨ occursIn ("non-disclosure".data) (lcs dt) = true) →
      (generate_document dt (Val.vDict data) st).1 = PyRes.ret (ndaRender data)) ∧
    ((lcs dt ≠ "nda".data ∧ occursIn ("non-disclosure".data) (lcs dt) = false ∧
        occursIn ("director".data) (lcs dt) = false ∧
        occursIn ("appointment".data) (lcs dt) = false ∧
        occursIn ("employment".data) (lcs dt) = false) →
      (generate_document dt (Val.vDict data) st).1 = PyRes.ret genericDoc) := by
  have hnonempty : data.isEmpty = false := by
    cases data with
    | nil => simp at hne
    | cons p rest => rfl
  have hA : (data.isEmpty || data.all (fun q => !truthy q.2)) = false := by
    rw [hnonempty, hne]
    rfl
  constructor
  · intro h
    have hcat : genCat dt = GenCat.nda := by
      rcases h with h | h
      · simp [genCat, h]
      · simp [genCat, h]
    simp only [generate_document, hsess, genBody, hA, Bool.false_eq_true, if_false, hval,
      hcat]
  · intro ⟨h1, h2, h3, h4, h5⟩
    have hcat : genCat dt = GenCat.generic := by
      simp [genCat, h1, h2, h3, h4, h5]
    simp only [generate_document, hsess, genBody, hA, Bool.false_eq_true, if_false, hval,
      hcat]

/-- Witness for C6 amended at two concrete types: an exact nda match and a
no-category type. -/
def scenarioData : List (S × Val) :=
  [("disclosing_party".data, Val.vStr "Acme".data),
   ("receiving_party".data, Val.vStr "Bob".data),
   ("effective_date".data, Val.vStr "2025-01-01".data),
   ("purpose".data, Val.vStr "evaluating a partnership".data),
   ("term_years".data, Val.vStr "3".data),
   ("jurisdiction".data, Val.vStr "New York".data)]

theorem c6_witness :
    (generate_document ("nda".data) (Val.vDict scenarioData) emptySt).1 =
      PyRes.ret (ndaRender scenarioData) ∧
    (generate_document ("Standard".data)
        (Val.vDict [("q".data, Val.vStr "w".data)]) emptySt).1 = PyRes.ret genericDoc := by
  constructor
  · exact (c6_template_selection ("nda".data) scenarioData emptySt rfl
      (by decide) (by decide)).1 (Or.inl (by decide))
  · exact (c6_template_selection ("Standard".data) [("q".data, Val.vStr "w".data)] emptySt rfl
      (by decide) (by decide)).2 ⟨by decide, by decide, by decide, by decide, by decide⟩

/-!  Claim C7. -/

theorem requiredFields_cases (dt : S) :
    requiredFields dt = ndaFields ∨ requiredFields dt = employmentFields ∨
    requiredFields dt = directorFields ∨ requiredFields dt = [] := by
  unfold requiredFields
  split_ifs <;> simp

theorem nda_canonical : ∀ p ∈ ndaFields, p.1 ∈ p.2 := by decide

theorem employment_canonical : ∀ p ∈ employmentFields, p.1 ∈ p.2 := by decide

theorem director_canonical : ∀ p ∈ directorFields, p.1 ∈ p.2 := by decide

theorem nda_disjoint : ∀ p ∈ ndaFields, ∀ q ∈ ndaFields, q ≠ p → ∀ x ∈ p.2, x ∉ q.2 := by
  decide

theorem employment_disjoint :
    ∀ p ∈ employmentFields, ∀ q ∈ employmentFields, q ≠ p → ∀ x ∈ p.2, x ∉ q.2 := by decide

theorem director_disjoint :
    ∀ p ∈ directorFields, ∀ q ∈ directorFields, q ≠ p → ∀ x ∈ p.2, x ∉ q.2 := by decide

theorem rf_canonical_mem (dt : S) (p : S × List S) (hp : p ∈ requiredFields dt) :
    p.1 ∈ p.2 := by
  rcases requiredFields_cases dt with h | h | h | h <;> rw [h] at hp
  · exact nda_canonical p hp
  · exact employment_canonical p hp
  · exact director_canonical p hp
  · simp at hp

theorem rf_disjoint (dt : S) (p q : S × List S) (hp : p ∈ requiredFields dt)
    (hq : q ∈ requiredFields dt) (hne : q ≠ p) (x : S) (hx : x ∈ p.2) : x ∉ q.2 := by
  rcases requiredFields_cases dt with h | h | h | h <;> rw [h] at hp hq
  · exact nda_disjoint p hp q hq hne x hx
  · exact employment_disjoint p hp q hq hne x hx
  · exact director_disjoint p hp q hq hne x hx
  · simp at hp

theorem exists_other {α : Type} (x y : α) (rest : List α) (hxy : x ≠ y) (p : α) :
    ∃ q ∈ x :: y :: rest, q ≠ p := by
  by_cases hp : p = x
  · refine ⟨y, by simp, ?_⟩
    rw [hp]
    exact fun h => hxy h.symm
  · exact ⟨x, by simp, fun h => hp h.symm⟩

theorem rf_two_groups (dt : S) (p : S × List S) (hp : p ∈ requiredFields dt) :
    ∃ q ∈ requiredFields dt, q ≠ p := by
  rcases requiredFields_cases dt with h | h | h | h <;> rw [h] at hp ⊢
  · exact exists_other _ _ _ (by decide) p
  · exact exists_other _ _ _ (by decide) p
  · exact exists_other _ _ _ (by decide) p
  · simp at hp

theorem dget_singleton (a b : S) (v : Val) :
    dget [(a, v)] b = if a = b then v else Val.vNone := by
  by_cases h : a = b <;> simp [dget, aget, h]

theorem any_truthy_singleton (al : List S) (a : S) (v : Val) :
    al.any (fun b => truthy (dget [(a, v)] b)) = (decide (a ∈ al) && truthy v) := by
  induction al with
  | nil => simp
  | cons b al ih =>
      by_cases hab : a = b
      · subst hab
        rw [List.any_cons, ih, dget_singleton, if_pos rfl]
        have hmem : decide (a ∈ a :: al) = true := by simp
        rw [hmem]
        cases truthy v <;> simp
      · rw [List.any_cons, ih, dget_singleton, if_neg hab]
        have hd : decide (a ∈ b :: al) = decide (a ∈ al) := by
          apply decide_eq_decide.mpr
          simp [List.mem_cons, hab]
        rw [hd]
        simp [truthy]

theorem filterMap_congr_mem {α β : Type} (l : List α) (f g : α → Option β)
    (h : ∀ x ∈ l, f x = g x) : l.filterMap f = l.filterMap g := by
  induction l with
  | nil => rfl
  | cons x l ih =>
      simp only [List.filterMap_cons, h x (List.mem_cons_self _ _)]
      rw [ih (fun y hy => h y (List.mem_cons_of_mem _ hy))]

theorem missingOf_singleton_alias (dt : S) (p : S × List S) (hp : p ∈ requiredFields dt)
    (a : S) (ha : a ∈ p.2) (v : Val) :
    missingOf dt [(a, v)] = missingOf dt [(p.1, v)] := by
  unfold missingOf
  apply filterMap_congr_mem
  intro q hq
  have hmemiff : (a ∈ q.2) ↔ (p.1 ∈ q.2) := by
    by_cases hqp : q = p
    · subst hqp
      simp [ha, rf_canonical_mem dt q hq]
    · simp [rf_disjoint dt p q hp hq hqp a ha,
        rf_disjoint dt p q hp hq hqp p.1 (rf_canonical_mem dt p hp)]
  have hdec : decide (a ∈ q.2) = decide (p.1 ∈ q.2) := decide_eq_decide.mpr hmemiff
  rw [any_truthy_singleton, any_truthy_singleton, hdec]

theorem validate_singleton_alias (dt : S) (p : S × List S) (hp : p ∈ requiredFields dt)
    (a : S) (ha : a ∈ p.2) (v : Val) :
    validate_required_fields dt [(a, v)] = validate_required_fields dt [(p.1, v)] := by
  unfold validate_required_fields
  rw [missingOf_singleton_alias dt p hp a ha v]

theorem missingOf_singleton_ne (dt : S) (p : S × List S) (hp : p ∈ requiredFields dt)
    (a : S) (ha : a ∈ p.2) (v : Val) : missingOf dt [(a, v)] ≠ [] := by
  obtain ⟨q, hq, hqp⟩ := rf_two_groups dt p hp
  have hm : q.1 ∈ missingOf dt [(a, v)] := by
    apply mem_missingOf dt _ q hq
    intro b hb
    rw [dget_singleton]
    have hab : ¬ a = b := by
      intro hab
      subst hab
      exact rf_disjoint dt p q hp hq hqp a ha hb
    simp [hab, truthy]
  exact List.ne_nil_of_mem hm

theorem generate_singleton_alias (dt : S) (p : S × List S) (hp : p ∈ requiredFields dt)
    (a : S) (ha : a ∈ p.2) (v : Val) (st : St)
    (hsess : sessEntry st ("default".data) dt = none) :
    (generate_document dt (Val.vDict [(a, v)]) st).1 =
      (generate_document dt (Val.vDict [(p.1, v)]) st).1 := by
  by_cases htv : truthy v = true
  · have hA : ∀ x : S, ([(x, v)].isEmpty || [(x, v)].all (fun q => !truthy q.2)) = false := by
      intro x
      simp [htv]
    have hvalne : validate_required_fields dt [(a, v)] =
        some (missingErr dt (missingOf dt [(a, v)])) := by
      unfold validate_required_fields
      rw [if_neg (missingOf_singleton_ne dt p hp a ha v)]
    have hvalc : validate_required_fields dt [(p.1, v)] =
        some (missingErr dt (missingOf dt [(a, v)])) := by
      rw [← validate_singleton_alias dt p hp a ha v]
      exact hvalne
    simp only [generate_document, hsess, genBody, hA, Bool.false_eq_true, if_false,
      hvalne, hvalc]
  · have htv2 : truthy v = false := Bool.eq_false_iff.mpr htv
    have hA : ∀ x : S, ([(x, v)].isEmpty || [(x, v)].all (fun q => !truthy q.2)) = true := by
      intro x
      simp [htv2]
    simp only [generate_document, hsess, genBody, hA, if_true]

/-- C7: alias resolution is first-truthy-wins, and consequently a singleton
mapping through a non-canonical alias validates identically and makes
generate_document return the same result as the canonical key with the same
value (with no prior extracted data for the type). -/
theorem c7_alias_resolution :
    (∀ (data : List (S × Val)) (pre rest : List S) (a : S) (dflt : Val),
      (∀ b ∈ pre, truthy (dget data b) = false) → truthy (dget data a) = true →
      resolveChain data (pre ++ a :: rest) dflt = dget data a) ∧
    (∀ (dt : S) (p : S × List S) (a : S) (v : Val) (st : St),
      p ∈ requiredFields dt → a ∈ p.2 → sessEntry st ("default".data) dt = none →
      validate_required_fields dt [(a, v)] = validate_required_fields dt [(p.1, v)] ∧
      (generate_document dt (Val.vDict [(a, v)]) st).1 =
        (generate_document dt (Val.vDict [(p.1, v)]) st).1) := by
  constructor
  · intro data pre rest a dflt hpre ha
    induction pre with
    | nil => simp [resolveChain, ha]
    | cons b pre ih =>
        simp only [List.cons_append, resolveChain, hpre b (List.mem_cons_self _ _),
          Bool.false_eq_true, if_false]
        exact ih (fun x hx => hpre x (List.mem_cons_of_mem _ hx))
  · intro dt p a v st hp ha hsess
    exact ⟨validate_singleton_alias dt p hp a ha v,
      generate_singleton_alias dt p hp a ha v st hsess⟩

/-- Witness for C7: the duration alias wins over later aliases in the NDA
chain, and a singleton duration mapping behaves like term_years itself. -/
theorem c7_witness :
    resolveChain [("duration".data, Val.vStr "7".data)]
        (["term".data, "term_years".data] ++ "duration".data :: ["period".data])
        (Val.vStr "0".data) = dget [("duration".data, Val.vStr "7".data)] ("duration".data) ∧
    validate_required_fields ("NDA".data) [("duration".data, Val.vStr "7".data)] =
      validate_required_fields ("NDA".data) [("term_years".data, Val.vStr "7".data)] ∧
    (generate_document ("NDA".data)
        (Val.vDict [("duration".data, Val.vStr "7".data)]) emptySt).1 =
      (generate_document ("NDA".data)
        (Val.vDict [("term_years".data, Val.vStr "7".data)]) emptySt).1 := by
  refine ⟨?_, ?_⟩
  · exact c7_alias_resolution.1 [("duration".data, Val.vStr "7".data)]
      ["term".data, "term_years".data] ["period".data] ("duration".data)
      (Val.vStr "0".data) (by decide) (by decide)
  · exact c7_alias_resolution.2 ("NDA".data)
      (("term_years".data, ["term".data, "term_years".data, "duration".data, "period".data]))
      ("duration".data) (Val.vStr "7".data) emptySt (by decide) (by decide) rfl

/-!  Claim C9. -/

theorem sessEntry_setSessEntry_self (st : St) (sid k : S) (v : Val) :
    sessEntry (setSessEntry st sid k v) sid k = some v := by
  unfold sessEntry setSessEntry sessOf
  simp [aget_aset_self]

theorem sessEntry_setSessEntry_ne (st : St) (sid k k2 : S) (v : Val) (hk : k2 ≠ k) :
    sessEntry (setSessEntry st sid k v) sid k2 = sessEntry st sid k2 := by
  unfold sessEntry setSessEntry sessOf
  simp [aget_aset_self, aget_aset_ne _ _ _ _ hk]

theorem genStoreWrite_sessEntry (doc did : S) (st : St) (k : S)
    (hk : k ≠ "current_document_id".data) :
    sessEntry (setSessEntry { st with docs := aset st.docs did doc } ("default".data)
      ("current_document_id".data) (Val.vStr did)) ("default".data) k =
    sessEntry st ("default".data) k := by
  rw [sessEntry_setSessEntry_ne _ _ _ _ _ hk]
  rfl

theorem genBody_sessEntry (dt did : S) (merged : List (S × Val)) (st : St) (k : S)
    (hk : k ≠ "current_document_id".data) :
    sessEntry (genBody dt did merged st).2 ("default".data) k =
      sessEntry st ("default".data) k := by
  unfold genBody
  split
  · rfl
  · split
    · rfl
    · cases hgc : genCat dt
      · simp only [hgc]
        exact genStoreWrite_sessEntry _ _ _ _ hk
      · simp only [hgc]
        cases hdr : dirRender merged with
        | exc e => rfl
        | ret doc => exact genStoreWrite_sessEntry _ _ _ _ hk
      · simp only [hgc]
        exact genStoreWrite_sessEntry _ _ _ _ hk
      · simp only [hgc]
        exact genStoreWrite_sessEntry _ _ _ _ hk

/-- The store produced by extracting a mapping under the bookkeeping key. -/
def c9st1 : St :=
  (extract_information (Val.vDict [("k".data, Val.vStr "v".data)])
    ("current_document_id".data) emptySt).2

/-- The store after then generating an NDA. -/
def c9st2 : St := (generate_document ("NDA".data) (Val.vDict scenarioData) c9st1).2

/-- C9 counterexample: the ExtractedData mapping stored for the document type
named current_document_id is wholesale replaced by a document-id string by a
later generate_document call for a different type — no session clear is
involved, so the stored mapping is not only reset by explicit clears. -/
theorem c9_counterexample :
    sessEntry c9st1 ("default".data) ("current_document_id".data) =
      some (Val.vDict [("k".data, Val.vStr "v".data)]) ∧
    (generate_document ("NDA".data) (Val.vDict scenarioData) c9st1).1 =
      PyRes.ret (ndaRender scenarioData) ∧
    sessEntry c9st2 ("default".data) ("current_document_id".data) =
      some (Val.vStr "NDA_0".data) :=
  ⟨rfl, rfl, rfl⟩

/-- C9 amended: for document-type keys other than the reserved
current_document_id slot (which generate_document reuses as the
current-document pointer), the stored ExtractedData mapping grows
monotonically: extract_information merges the new keys in (new values win,
old keys survive), generate_document leaves an existing mapping untouched,
and apply_edits never modifies the extracted store at all. -/
theorem c9_monotonic_growth :
    (∀ (olddata newdata : List (S × Val)) (dt : S) (st : St),
      sessEntry st ("default".data) dt = some (Val.vDict olddata) →
      (newdata.map Prod.fst).Nodup →
      extract_information (Val.vDict newdata) dt st =
        (PyRes.ret (dUpdate olddata newdata),
          setSessEntry st ("default".data) dt (Val.vDict (dUpdate olddata newdata))) ∧
      sessEntry (setSessEntry st ("default".data) dt
          (Val.vDict (dUpdate olddata newdata))) ("default".data) dt =
        some (Val.vDict (dUpdate olddata newdata)) ∧
      (∀ k, aget (dUpdate olddata newdata) k =
        match aget newdata k with
        | some v => some v
        | none => aget olddata k)) ∧
    (∀ (dt : S) (ed : Val) (st : St) (olddata : List (S × Val)),
      dt ≠ "current_document_id".data →
      sessEntry st ("default".data) dt = some (Val.vDict olddata) →
      sessEntry (generate_document dt ed st).2 ("default".data) dt =
        some (Val.vDict olddata)) ∧
    (∀ (ds : S) (nv : List (S × Val)) (dId : Option S) (st : St),
      (apply_edits ds nv dId st).2.2.extracted = st.extracted) := by
  refine ⟨?_, ?_, ?_⟩
  · intro olddata newdata dt st hsess hnd
    refine ⟨?_, sessEntry_setSessEntry_self _ _ _ _, fun k => aget_dUpdate_nodup _ _ hnd k⟩
    simp only [extract_information, hsess]
  · intro dt ed st olddata hk hsess
    by_cases hted : truthy ed = true
    · cases ed with
      | vDict d =>
          simp only [generate_document, hsess, hted, if_true]
          rw [genBody_sessEntry _ _ _ _ _ hk]
          exact hsess
      | vStr strv => simp only [generate_document, hsess, hted, if_true, hsess]
      | vNum n => simp only [generate_document, hsess, hted, if_true, hsess]
      | vList l => simp only [generate_document, hsess, hted, if_true, hsess]
      | vNone => simp only [generate_document, hsess, hted, if_true, hsess]
    · have hted2 : truthy ed = false := Bool.eq_false_iff.mpr hted
      simp only [generate_document, hsess, hted2, Bool.false_eq_true, if_false]
      rw [genBody_sessEntry _ _ _ _ _ hk]
      exact hsess
  · intro ds nv dId st
    unfold apply_edits
    cases hf : lookupDoc (resolveDocId dId st) st with
    | exc e => rfl
    | ret o =>
        cases o with
        | none => rfl
        | some pr =>
            obtain ⟨d2, doc⟩ := pr
            show (editSteps nv d2 doc st).2.2.extracted = st.extracted
            simp only [editSteps]
            cases h1 : step1Of (apop nv ("new_clause_text".data)).1 doc with
            | exc e => simp only [h1]
            | ret doc1 =>
                simp only [h1]
                cases h2 : step2Of (apop (apop nv ("new_clause_text".data)).2
                    ("text_to_find".data)).1
                    (apop (apop (apop nv ("new_clause_text".data)).2
                      ("text_to_find".data)).2 ("replacement_text".data)).1 doc1 with
                | exc e => simp only [h2]
                | ret doc2 =>
                    simp only [h2]
                    cases h3 : keyEdits doc2 (apop (apop (apop nv
                        ("new_clause_text".data)).2 ("text_to_find".data)).2
                        ("replacement_text".data)).2 with
                    | exc e => simp only [h3]
                    | ret doc3 => simp only [h3]

/-- Witness for C9 amended at concrete stores and data. -/
theorem c9_witness :
    extract_information (Val.vDict [("b".data, Val.vStr "2".data)]) ("T".data)
        (setSessEntry emptySt ("default".data) ("T".data)
          (Val.vDict [("a".data, Val.vStr "1".data)])) =
      (PyRes.ret (dUpdate [("a".data, Val.vStr "1".data)] [("b".data, Val.vStr "2".data)]),
        setSessEntry (setSessEntry emptySt ("default".data) ("T".data)
            (Val.vDict [("a".data, Val.vStr "1".data)])) ("default".data) ("T".data)
          (Val.vDict (dUpdate [("a".data, Val.vStr "1".data)]
            [("b".data, Val.vStr "2".data)]))) ∧
    sessEntry (generate_document ("NDA".data) (Val.vStr "junk".data)
        (setSessEntry emptySt ("default".data) ("NDA".data)
          (Val.vDict [("a".data, Val.vStr "1".data)]))).2 ("default".data) ("NDA".data) =
      some (Val.vDict [("a".data, Val.vStr "1".data)]) ∧
    (apply_edits [] [("x".data, Val.vStr "y".data)] none emptySt).2.2.extracted =
      emptySt.extracted := by
  refine ⟨?_, ?_, ?_⟩
  · exact (c9_monotonic_growth.1 [("a".data, Val.vStr "1".data)]
      [("b".data, Val.vStr "2".data)] ("T".data) _ (sessEntry_setSessEntry_self _ _ _ _)
      (by decide)).1
  · exact c9_monotonic_growth.2.1 ("NDA".data) (Val.vStr "junk".data) _
      [("a".data, Val.vStr "1".data)] (by decide) (sessEntry_setSessEntry_self _ _ _ _)
  · exact c9_monotonic_growth.2.2 [] [("x".data, Val.vStr "y".data)] none emptySt

/-!  Claim C10. -/

theorem aget_filter_of_none {α : Type} (m : List (S × α)) (k : S) :
    aget (m.filter (fun p => p.1 ≠ k)) k = none := by
  induction m with
  | nil => rfl
  | cons p rest ih =>
      obtain ⟨kp, vp⟩ := p
      rw [List.filter_cons]
      by_cases hk : kp = k
      · have hc : (decide ((kp, vp).1 ≠ k)) = false := by simp [hk]
        rw [hc]
        simpa using ih
      · have hc : (decide ((kp, vp).1 ≠ k)) = true := by simp [hk]
        rw [hc]
        simp only [if_true]
        simp only [aget, hk, if_false]
        exact ih

theorem aget_filter_none {α : Type} (m : List (S × α)) (k : S) (q : S × α → Bool)
    (h : aget m k = none) : aget (m.filter q) k = none := by
  induction m with
  | nil => rfl
  | cons p rest ih =>
      obtain ⟨kp, vp⟩ := p
      simp only [aget] at h
      by_cases hk : kp = k
      · rw [if_pos hk] at h
        cases h
      · rw [if_neg hk] at h
        simp only [List.filter_cons]
        cases q (kp, vp) with
        | false => exact ih h
        | true =>
            simp only [if_true]
            simp only [aget, hk, if_false]
            exact ih h

/-- C10 counterexample: with no document in the store, apply_edits takes the
no-document early return before any pop, so the special keys are still in
the caller's dictionary afterwards; the claim that the keys are always
removed is false. -/
theorem c10_counterexample :
    apply_edits [] [("text_to_find".data, Val.vStr "a".data),
        ("replacement_text".data, Val.vStr "b".data)] none emptySt =
      (PyRes.ret errNoDoc,
        [("text_to_find".data, Val.vStr "a".data),
         ("replacement_text".data, Val.vStr "b".data)], emptySt) ∧
    (aget [("text_to_find".data, Val.vStr "a".data),
        ("replacement_text".data, Val.vStr "b".data)] ("text_to_find".data)).isSome = true :=
  ⟨rfl, rfl⟩

/-- C10 amended: whenever apply_edits resolves a document to edit and the
clause-insertion step does not raise, all three special keys are absent from
the returned new_values dictionary (on the no-document path the dictionary
is returned untouched). -/
theorem c10_pops_special_keys (ds : S) (nv : List (S × Val)) (docId : Option S) (st : St)
    (dId doc : S)
    (hdoc : lookupDoc (resolveDocId docId st) st = PyRes.ret (some (dId, doc)))
    (hstep1 : ∀ e, step1Of (apop nv ("new_clause_text".data)).1 doc ≠ PyRes.exc e) :
    aget (apply_edits ds nv docId st).2.1 ("new_clause_text".data) = none ∧
    aget (apply_edits ds nv docId st).2.1 ("text_to_find".data) = none ∧
    aget (apply_edits ds nv docId st).2.1 ("replacement_text".data) = none := by
  have hnv1 : aget (apop nv ("new_clause_text".data)).2 ("new_clause_text".data) = none :=
    aget_filter_of_none nv _
  have key3 : ∀ res : PyRes S,
      (res, (apop (apop (apop nv ("new_clause_text".data)).2 ("text_to_find".data)).2
        ("replacement_text".data)).2) = (res, (apop (apop (apop nv
        ("new_clause_text".data)).2 ("text_to_find".data)).2 ("replacement_text".data)).2) :=
    fun _ => rfl
  unfold apply_edits
  rw [hdoc]
  simp only [editSteps]
  cases h1 : step1Of (apop nv ("new_clause_text".data)).1 doc with
  | exc e => exact absurd h1 (hstep1 e)
  | ret doc1 =>
      simp only [h1]
      have habs : aget (apop (apop (apop nv ("new_clause_text".data)).2
          ("text_to_find".data)).2 ("replacement_text".data)).2 ("new_clause_text".data) =
            none ∧
          aget (apop (apop (apop nv ("new_clause_text".data)).2
          ("text_to_find".data)).2 ("replacement_text".data)).2 ("text_to_find".data) =
            none ∧
          aget (apop (apop (apop nv ("new_clause_text".data)).2
          ("text_to_find".data)).2 ("replacement_text".data)).2 ("replacement_text".data) =
            none := by
        refine ⟨?_, ?_, ?_⟩
        · exact aget_filter_none _ _ _ (aget_filter_none _ _ _ hnv1)
        · exact aget_filter_none _ _ _ (aget_filter_of_none _ _)
        · exact aget_filter_of_none _ _
      cases h2 : step2Of (apop (apop nv ("new_clause_text".data)).2
          ("text_to_find".data)).1
          (apop (apop (apop nv ("new_clause_text".data)).2
            ("text_to_find".data)).2 ("replacement_text".data)).1 doc1 with
      | exc e => simpa only [h2] using habs
      | ret doc2 =>
          simp only [h2]
          cases h3 : keyEdits doc2 (apop (apop (apop nv
              ("new_clause_text".data)).2 ("text_to_find".data)).2
              ("replacement_text".data)).2 with
          | exc e => simpa only [h3] using habs
          | ret doc3 => simpa only [h3] using habs

/-- Witness for C10 amended: a stored document and a dictionary carrying all
three special keys. -/
theorem c10_witness :
    aget (apply_edits [] [("text_to_find".data, Val.vStr "a".data),
        ("replacement_text".data, Val.vStr "b".data),
        ("new_clause_text".data, Val.vStr "c".data)] (some ("d".data))
        { extracted := [], docs := [("d".data, "xyz IN WITNESS WHEREOF q".data)] }).2.1
      ("new_clause_text".data) = none ∧
    aget (apply_edits [] [("text_to_find".data, Val.vStr "a".data),
        ("replacement_text".data, Val.vStr "b".data),
        ("new_clause_text".data, Val.vStr "c".data)] (some ("d".data))
        { extracted := [], docs := [("d".data, "xyz IN WITNESS WHEREOF q".data)] }).2.1
      ("text_to_find".data) = none ∧
    aget (apply_edits [] [("text_to_find".data, Val.vStr "a".data),
        ("replacement_text".data, Val.vStr "b".data),
        ("new_clause_text".data, Val.vStr "c".data)] (some ("d".data))
        { extracted := [], docs := [("d".data, "xyz IN WITNESS WHEREOF q".data)] }).2.1
      ("replacement_text".data) = none := by
  exact c10_pops_special_keys [] [("text_to_find".data, Val.vStr "a".data),
      ("replacement_text".data, Val.vStr "b".data),
      ("new_clause_text".data, Val.vStr "c".data)] (some ("d".data))
    { extracted := [], docs := [("d".data, "xyz IN WITNESS WHEREOF q".data)] }
    ("d".data) ("xyz IN WITNESS WHEREOF q".data) rfl
    (fun e h => by
      rw [show step1Of (apop [("text_to_find".data, Val.vStr "a".data),
          ("replacement_text".data, Val.vStr "b".data),
          ("new_clause_text".data, Val.vStr "c".data)] ("new_clause_text".data)).1
          ("xyz IN WITNESS WHEREOF q".data) =
        PyRes.ret ("xyz \n\n**NEW CLAUSE**\n\nc\n\nIN WITNESS WHEREOF q".data) from rfl] at h
      cases h)
/-!  Claim C3. -/

/-- C3: on a streamed turn, (a) the event list of every turn ends with the
terminal done sentinel no matter what the chunks or the tool dispatch did,
and (b) when the terminal signal arrives with an accumulated call whose
argument buffer does not parse, the step emits the parse error event,
performs no store mutation, and resets the accumulator without dispatching. -/
theorem c3_stream_error_handling :
    (∀ (parse : S → Option Val) (fo : Nat → List S) (chunks : List Chunk) (σ0 : LoopSt),
      (runTurn parse fo chunks σ0).1.getLast? = some Ev.done) ∧
    (∀ (parse : S → Option Val) (fo : Nat → List S) (σ : LoopSt) (c : Chunk) (a : Accum),
      c.finishToolCalls = true →
      (c.tcs.foldl procDelta (σ.acc, [])).1 = some a →
      parse a.fargs = none →
      Ev.errEv ("Error parsing function arguments".data) ∈ (stepChunk parse fo σ c).1 ∧
      (stepChunk parse fo σ c).2.st = σ.st ∧
      (stepChunk parse fo σ c).2.acc = none) := by
  constructor
  · intro parse fo chunks σ0
    unfold runTurn
    exact List.getLast?_concat _
  · intro parse fo σ c a hfin hacc hparse
    simp only [stepChunk, hfin, hacc, hparse, if_true]
    refine ⟨List.mem_append.2 (Or.inr (List.mem_singleton.2 rfl)), ?_, ?_⟩ <;> trivial

/-- Witness for C3: a one-chunk turn whose tool-call arguments are not JSON;
the parser rejects them, the error event is emitted, the store is untouched,
and the turn still ends in the done sentinel. -/
theorem c3_witness :
    (runTurn (fun _ => none) (fun _ => []) []
      { fullResponse := [], acc := none, st := emptySt, hist := [], fuIdx := 0 }).1.getLast? =
      some Ev.done ∧
    (Ev.errEv ("Error parsing function arguments".data) ∈
      (stepChunk (fun _ => none) (fun _ => [])
        { fullResponse := [], acc := none, st := emptySt, hist := [], fuIdx := 0 }
        { content := none,
          tcs := [{ tid := some ("1".data), dname := some ("apply_edits".data),
                    dargs := some ("not json".data) }],
          finishToolCalls := true }).1 ∧
      (stepChunk (fun _ => none) (fun _ => [])
        { fullResponse := [], acc := none, st := emptySt, hist := [], fuIdx := 0 }
        { content := none,
          tcs := [{ tid := some ("1".data), dname := some ("apply_edits".data),
                    dargs := some ("not json".data) }],
          finishToolCalls := true }).2.st = emptySt ∧
      (stepChunk (fun _ => none) (fun _ => [])
        { fullResponse := [], acc := none, st := emptySt, hist := [], fuIdx := 0 }
        { content := none,
          tcs := [{ tid := some ("1".data), dname := some ("apply_edits".data),
                    dargs := some ("not json".data) }],
          finishToolCalls := true }).2.acc = none) :=
  ⟨c3_stream_error_handling.1 (fun _ => none) (fun _ => []) []
      { fullResponse := [], acc := none, st := emptySt, hist := [], fuIdx := 0 },
   c3_stream_error_handling.2 (fun _ => none) (fun _ => [])
      { fullResponse := [], acc := none, st := emptySt, hist := [], fuIdx := 0 }
      { content := none,
        tcs := [{ tid := some ("1".data), dname := some ("apply_edits".data),
                  dargs := some ("not json".data) }],
        finishToolCalls := true }
      { tid := "1".data, fname := "apply_edits".data, fargs := "not json".data }
      rfl (by decide) rfl⟩

/-!  Claim C8. -/

/-- C8 counterexample: the stored document contains no date-pattern target at
all, yet editing effective_date raises, because re.sub compiles the
replacement template before looking for a match and the template is invalid;
the claim that a target-free edit never reports an error is false. -/
theorem c8_counterexample :
    dateHas ("hello world".data) = false ∧
    (apply_edits [] [("effective_date".data, Val.vStr "\\p".data)] (some ("d".data))
      { extracted := [], docs := [("d".data, "hello world".data)] }).1 =
      PyRes.exc ("re.error: bad replacement template".data) :=
  ⟨rfl, rfl⟩

/-- C8 amended: an edit key none of whose derived targets (the period phrase,
the date pattern, the name placeholders, the bracketed placeholder and the
Field Missing sentinel) occurs in the document is a no-op for that key,
provided the string form of the value contains no backslash (otherwise the
eagerly compiled replacement template may raise despite the absence of any
match). -/
theorem c8_no_target_no_op (doc key : S) (v : Val)
    (hb : hasBackslash (pyStr v) = false)
    (hperiod : periodFind doc = none)
    (hdate : dateHas doc = false)
    (hname : nameHas doc = false)
    (hph : occursIn (keyPlaceholder key) doc = false)
    (hsent : occursIn (keySentinel key) doc = false) :
    keyEdit doc key v = PyRes.ret doc := by
  have hdate2 : dateHasGo none doc = false := hdate
  have hds : dateSub (pyStr v) doc = doc := dateSubGo_id _ _ _ hdate2
  have hns : nameSub (pyStr v) doc = doc := nameSubGo_id _ _ _ hname
  have hpne : keyPlaceholder key ≠ [] := by simp [keyPlaceholder]
  have hsne : keySentinel key ≠ [] := by simp [keySentinel]
  have hra1 : replaceAll (keyPlaceholder key) (pyStr v) doc = doc := by
    rw [replaceAll, if_neg hpne]
    exact raGo_id _ _ _ _ hph
  have hra2 : replaceAll (keySentinel key) (pyStr v) doc = doc := by
    rw [replaceAll, if_neg hsne]
    exact raGo_id _ _ _ _ hsent
  by_cases hd : key ∈ dateKeys
  · by_cases ht : key ∈ termKeys
    · simp only [keyEdit, if_pos hd, if_pos ht, hperiod,
        templOk_no_bs 1 (pyStr v) hb, if_true, hds]
    · simp only [keyEdit, if_pos hd, if_neg ht,
        templOk_no_bs 1 (pyStr v) hb, if_true, hds]
  · by_cases hn : key ∈ nameKeys
    · simp only [keyEdit, if_neg hd, if_pos hn,
        templOk_no_bs 0 (pyStr v) hb, if_true, hns]
    · simp only [keyEdit, if_neg hd, if_neg hn, hra1, hra2]

/-- Witness for C8 amended: no date, name, placeholder or sentinel target in
the document, a plain digit value, and the edit leaves the text alone. -/
theorem c8_witness :
    keyEdit ("hello world".data) ("effective_date".data) (Val.vStr "5".data) =
      PyRes.ret ("hello world".data) :=
  c8_no_target_no_op ("hello world".data) ("effective_date".data) (Val.vStr "5".data)
    (by decide) (by decide) (by decide) (by decide) (by decide) (by decide)

/-!  Claim C5. -/

/-- The substitution C5 describes, written from the specification text:
replace exactly the first occurrence of the find text, matched
case-insensitively, with the replacement text taken literally, changing
nothing else. -/
def replaceFirstCIspec (f r : S) : S → S
  | [] => if ciStartsWith f [] then r else []
  | c :: rest =>
      if ciStartsWith f (c :: rest) then r ++ (c :: rest).drop f.length
      else c :: replaceFirstCIspec f r rest

/-- C5 counterexample: with replacement text containing a backslash escape,
the substitution is not the described one: the template raises inside the
try, and the fallback is a case-sensitive replace-all, so the leading
upper-case occurrence survives and the replacement is not taken literally
by the primary path. -/
theorem c5_counterexample :
    frStep ("X x".data) ("x".data) ("\\1".data) = "X \\1".data ∧
    replaceFirstCIspec ("x".data) ("\\1".data) ("X x".data) = "\\1 x".data ∧
    ("X \\1".data : S) ≠ "\\1 x".data :=
  ⟨rfl, rfl, by decide⟩

/-- C5 amended: whenever the replacement text contains no backslash, the
find/replace step is exactly the first-occurrence case-insensitive literal
substitution the specification describes. -/
theorem c5_first_ci_occurrence (doc f r : S) (hb : hasBackslash r = false) :
    frStep doc f r = replaceFirstCIspec f r doc := by
  rw [frStep, if_pos (templOk_no_bs 0 r hb)]
  induction doc with
  | nil =>
      simp only [subFirstCIT, replaceFirstCIspec, templExpand_no_bs 0 _ r hb]
  | cons c rest ih =>
      simp only [subFirstCIT, replaceFirstCIspec, templExpand_no_bs 0 _ r hb, ih]

/-- Witness for C5 amended: a backslash-free replacement; the first,
differently-cased occurrence is the one replaced. -/
theorem c5_witness :
    frStep ("X x".data) ("x".data) ("y".data) =
      replaceFirstCIspec ("x".data) ("y".data) ("X x".data) ∧
    replaceFirstCIspec ("x".data) ("y".data) ("X x".data) = "y x".data :=
  ⟨c5_first_ci_occurrence ("X x".data) ("x".data) ("y".data) (by decide), by decide⟩

/-!  Claim C2. -/

theorem hasBackslash_append (a b : S) :
    hasBackslash (a ++ b) = (hasBackslash a || hasBackslash b) := by
  simp [hasBackslash, List.any_append]

theorem hasBackslash_natLit (n : Nat) : hasBackslash (natLit n) = false := by
  rw [hasBackslash, List.any_eq_false]
  intro c hc
  have hd := natLit_digits n c hc
  simp only [decide_eq_true_eq]
  intro he
  rw [he] at hd
  exact absurd hd (by decide)

theorem mem_stripPy (c : Char) (s : S) (h : c ∈ stripPy s) : c ∈ s := by
  simp only [stripPy, List.mem_reverse] at h
  have h2 : c ∈ (s.dropWhile (fun c => isSpaceC c)).reverse :=
    (List.dropWhile_sublist _).mem h
  rw [List.mem_reverse] at h2
  exact (List.dropWhile_sublist _).mem h2

theorem hasBackslash_strip (s : S) (h : hasBackslash s = false) :
    hasBackslash (stripPy s) = false := by
  rw [hasBackslash, List.any_eq_false]
  rw [hasBackslash, List.any_eq_false] at h
  exact fun c hc => h c (mem_stripPy c s hc)

theorem gpFind_of_parse (s : S) (r : S × S) (h : gpParseAt s = some r) :
    gpFind s = some r := by
  cases s with
  | nil => rw [show gpParseAt ([] : S) = none from rfl] at h; cases h
  | cons c rest => rw [gpFind_cons, h]

/-- C2 counterexample: the stored text carries a numbered GENERAL PROVISIONS
heading, yet inserting a clause whose text contains a backslash group
reference raises instead of producing the renumbered document, because the
substitution template built from the clause text is compiled before the
replacement happens; the claim that a clause is always inserted when the
heading exists is false. -/
theorem c2_counterexample :
    gpFind ("9. GENERAL PROVISIONS".data) =
      some ("9. GENERAL PROVISIONS".data, "9".data) ∧
    insertClause ("9. GENERAL PROVISIONS".data) ("\\1".data) =
      PyRes.exc ("re.error: bad replacement template".data) :=
  ⟨rfl, rfl⟩

/-- C2 amended: for a backslash-free clause text, (a) when the document is
pre ++ heading ++ post with the leftmost heading match exactly there, the
result inserts the new numbered ADDITIONAL COVENANT clause and the
renumbered heading in place of the old heading, leaving pre and post
byte-for-byte unchanged (the heading itself is rewritten in normalized
spacing and the clause number is the decimal value of the digit group); and
(b) with no heading match, the clause block is inserted immediately before
the unique IN WITNESS WHEREOF marker. -/
theorem c2_clause_insertion :
    (∀ (pre ds post txt : S),
      ds ≠ [] →
      (∀ c ∈ ds, isDigitC c = true) →
      hasBackslash txt = false →
      (∀ i, i < pre.length →
        gpParseAt ((pre ++ (ds ++ ". GENERAL PROVISIONS".data) ++ post).drop i) = none) →
      (∀ i, i < pre.length →
        ciStartsWith (ds ++ ". GENERAL PROVISIONS".data)
          ((pre ++ (ds ++ ". GENERAL PROVISIONS".data) ++ post).drop i) = false) →
      insertClause (pre ++ (ds ++ ". GENERAL PROVISIONS".data) ++ post) txt =
        PyRes.ret (pre ++
          ("\n\n".data ++ natLit (natOfDigits ds) ++ ". **ADDITIONAL COVENANT**\n\n".data ++
            stripPy txt ++ "\n\n".data ++ "\n\n".data ++ natLit (natOfDigits ds + 1) ++
            ". GENERAL PROVISIONS".data) ++ post)) ∧
    (∀ (pre post txt : S),
      gpFind (pre ++ "IN WITNESS WHEREOF".data ++ post) = none →
      (∀ i, i < pre.length →
        startsWithL ("IN WITNESS WHEREOF".data)
          ((pre ++ "IN WITNESS WHEREOF".data ++ post).drop i) = false) →
      occursIn ("IN WITNESS WHEREOF".data) post = false →
      insertClause (pre ++ "IN WITNESS WHEREOF".data ++ post) txt =
        PyRes.ret (pre ++
          ("\n\n**NEW CLAUSE**\n\n".data ++ stripPy txt ++ "\n\nIN WITNESS WHEREOF".data) ++
          post)) := by
  constructor
  · intro pre ds post txt hds hdig hb hpre hci
    have hpre2 : ∀ i, i < pre.length →
        gpParseAt ((pre ++ ((ds ++ ". GENERAL PROVISIONS".data) ++ post)).drop i) = none := by
      intro i hi
      have := hpre i hi
      rwa [List.append_assoc] at this
    have hfind : gpFind (pre ++ (ds ++ ". GENERAL PROVISIONS".data) ++ post) =
        some (ds ++ ". GENERAL PROVISIONS".data, ds) := by
      rw [List.append_assoc, gpFind_skip pre _ hpre2]
      exact gpFind_of_parse _ _ (gpParseAt_header ds post hds hdig)
    have hrb : hasBackslash (("\n\n".data ++ natLit (natOfDigits ds) ++
        ". **ADDITIONAL COVENANT**\n\n".data ++ stripPy txt ++ "\n\n".data) ++
        "\n\n".data ++ natLit (natOfDigits ds + 1) ++ ". GENERAL PROVISIONS".data) = false := by
      simp only [hasBackslash_append, hasBackslash_natLit, hasBackslash_strip txt hb,
        Bool.or_false, Bool.false_or]
      decide
    simp only [insertClause, hfind, templOk_no_bs _ _ hrb, if_true]
    rw [subFirstCIT_split _ _ pre post hci, templExpand_no_bs _ _ _ hrb]
  · intro pre post txt hfind hpre h2
    simp only [insertClause, hfind]
    rw [replaceAll, if_neg (by decide : ¬("IN WITNESS WHEREOF".data : S) = [])]
    exact congrArg PyRes.ret
      (raGo_split _ _ pre post _ (by decide) (Nat.le_refl _) hpre h2)

/-- Witness for C2 amended: both branches at concrete documents. -/
theorem c2_witness :
    insertClause ("A\n".data ++ ("9".data ++ ". GENERAL PROVISIONS".data) ++ " end".data)
        (" hi ".data) =
      PyRes.ret ("A\n".data ++
        ("\n\n".data ++ natLit (natOfDigits ("9".data)) ++
          ". **ADDITIONAL COVENANT**\n\n".data ++ stripPy (" hi ".data) ++ "\n\n".data ++
          "\n\n".data ++ natLit (natOfDigits ("9".data) + 1) ++
          ". GENERAL PROVISIONS".data) ++ " end".data) ∧
    insertClause ("x ".data ++ "IN WITNESS WHEREOF".data ++ " y".data) ("c".data) =
      PyRes.ret ("x ".data ++
        ("\n\n**NEW CLAUSE**\n\n".data ++ stripPy ("c".data) ++
          "\n\nIN WITNESS WHEREOF".data) ++ " y".data) :=
  ⟨c2_clause_insertion.1 ("A\n".data) ("9".data) (" end".data) (" hi ".data)
      (by decide) (by decide) (by decide) (by decide) (by decide),
   c2_clause_insertion.2 ("x ".data) (" y".data) ("c".data)
      (by decide) (by decide) (by decide)⟩

/-!  Claim C4. -/

theorem isSpaceC_of_digit (c : Char) (h : isDigitC c = true) : isSpaceC c = false := by
  simp only [isDigitC, Bool.and_eq_true, decide_eq_true_eq] at h
  obtain ⟨hl, hr⟩ := h
  simp only [isSpaceC, Bool.or_eq_false_iff, decide_eq_false_iff_not]
  refine ⟨⟨⟨⟨⟨?_, ?_⟩, ?_⟩, ?_⟩, ?_⟩, ?_⟩ <;> rintro rfl <;> revert hl <;> decide

/-- The duration pattern matches at the head of
"period of " ++ ds ++ " years" ++ rest when ds is a nonempty digit string,
capturing ds. -/
theorem periodParseAt_header (ds rest : S) (h1 : ds ≠ [])
    (h2 : ∀ c ∈ ds, isDigitC c = true) :
    periodParseAt ("period of ".data ++ ds ++ " years".data ++ rest) = some ds := by
  obtain ⟨d, ds2, rfl⟩ := List.exists_cons_of_ne_nil h1
  have hd : isDigitC d = true := h2 d (List.mem_cons_self d ds2)
  have hnsp : isSpaceC d = false := isSpaceC_of_digit d hd
  have hspc : isSpaceC ' ' = true := rfl
  rw [List.append_assoc, List.append_assoc]
  have e0 : chewLit ("period".data)
      ("period of ".data ++ ((d :: ds2) ++ (" years".data ++ rest))) =
      some (" of ".data ++ ((d :: ds2) ++ (" years".data ++ rest))) := rfl
  have e1 : ((" of ".data ++ ((d :: ds2) ++ (" years".data ++ rest)))).takeWhile
      (fun c => isSpaceC c) = [' '] := rfl
  have e2 : ((" of ".data ++ ((d :: ds2) ++ (" years".data ++ rest)))).dropWhile
      (fun c => isSpaceC c) = "of ".data ++ ((d :: ds2) ++ (" years".data ++ rest)) := rfl
  have e3 : chewLit ("of".data) ("of ".data ++ ((d :: ds2) ++ (" years".data ++ rest))) =
      some (" ".data ++ ((d :: ds2) ++ (" years".data ++ rest))) := rfl
  have etail : ((d :: ds2) ++ (" years".data ++ rest)).takeWhile (fun c => isSpaceC c) = [] := by
    simp only [List.cons_append, List.takeWhile_cons, hnsp]
    rfl
  have e4 : (" ".data ++ ((d :: ds2) ++ (" years".data ++ rest))).takeWhile
      (fun c => isSpaceC c) = [' '] := by
    show (' ' :: ((d :: ds2) ++ (" years".data ++ rest))).takeWhile
      (fun c => isSpaceC c) = [' ']
    simp only [List.takeWhile_cons, hspc, if_true, etail]
  have e5 : (" ".data ++ ((d :: ds2) ++ (" years".data ++ rest))).dropWhile
      (fun c => isSpaceC c) = (d :: ds2) ++ (" years".data ++ rest) := by
    show (' ' :: ((d :: ds2) ++ (" years".data ++ rest))).dropWhile
      (fun c => isSpaceC c) = (d :: ds2) ++ (" years".data ++ rest)
    simp only [List.dropWhile_cons, hspc, if_true, List.cons_append, hnsp,
      Bool.false_eq_true, if_false]
  have e6 : ((d :: ds2) ++ (" years".data ++ rest)).takeWhile (fun c => isDigitC c) =
      d :: ds2 := by
    rw [takeWhile_all_app _ _ _ h2,
      show ((" years".data ++ rest)).takeWhile (fun c => isDigitC c) = [] from rfl,
      List.append_nil]
  have e7 : ((d :: ds2) ++ (" years".data ++ rest)).dropWhile (fun c => isDigitC c) =
      " years".data ++ rest := by
    rw [dropWhile_all_app _ _ _ h2]
    rfl
  have e8 : ((" years".data ++ rest)).takeWhile (fun c => isSpaceC c) = [' '] := rfl
  have e9 : ((" years".data ++ rest)).dropWhile (fun c => isSpaceC c) =
      "years".data ++ rest := rfl
  have e10 : chewLit ("years".data) ("years".data ++ rest) = some rest :=
    chewLit_self_append _ _
  simp only [periodParseAt, e0, e1, e2, e3, e4, e5, e6, e7, e8, e9, e10]
  rfl

theorem periodFind_of_parse (s : S) (ds : S) (h : periodParseAt s = some ds) :
    periodFind s = some ds := by
  cases s with
  | nil => rw [show periodParseAt ([] : S) = none from rfl] at h; cases h
  | cons c rest => rw [periodFind_cons, h]

/-- C4 counterexample: the duration value in the document is not a digit
string, so the duration pattern does not match; the edit falls through to the
date branch and rewrites the leftmost date in the document instead, leaving
both duration phrases untouched; the claim that a term_years edit always
rewrites the duration phrase is false. -/
theorem c4_counterexample :
    keyEdit ("on 2025-01-01 for a period of three years and shall continue for a period of three years thereafter".data)
        ("term_years".data) (Val.vStr "5".data) =
      PyRes.ret ("on 5 for a period of three years and shall continue for a period of three years thereafter".data) ∧
    occursIn ("period of 5 years".data)
      ("on 5 for a period of three years and shall continue for a period of three years thereafter".data) = false :=
  ⟨rfl, rfl⟩

/-- C4 amended: when the document carries the duration digit string ds in
both duration phrases (the term clause and the survival clause), the leftmost
duration-pattern match is the term clause, and no copy of either phrase
occurs earlier than expected, editing term_years to a value whose string form
is sv rewrites exactly the two duration phrases and leaves every other byte
of the document unchanged. -/
theorem c4_term_rewrite (P Q R ds sv : S) (v : Val)
    (hv : pyStr v = sv)
    (hds : ds ≠ []) (hdig : ∀ c ∈ ds, isDigitC c = true)
    (hP : ∀ i, i < P.length → periodParseAt
      ((P ++ ("period of ".data ++ ds ++ " years".data) ++ Q ++
        ("continue for a period of ".data ++ ds ++ " years".data) ++ R).drop i) = none)
    (h1 : ∀ i, i < P.length → startsWithL ("period of ".data ++ ds ++ " years".data)
      ((P ++ ("period of ".data ++ ds ++ " years".data) ++ Q ++
        ("continue for a period of ".data ++ ds ++ " years".data) ++ R).drop i) = false)
    (h2 : ∀ i, i < (P ++ ("period of ".data ++ sv ++ " years".data) ++ Q).length →
      startsWithL ("continue for a period of ".data ++ ds ++ " years".data)
        ((P ++ ("period of ".data ++ sv ++ " years".data) ++ Q ++
          ("continue for a period of ".data ++ ds ++ " years".data) ++ R).drop i) = false) :
    keyEdit (P ++ ("period of ".data ++ ds ++ " years".data) ++ Q ++
        ("continue for a period of ".data ++ ds ++ " years".data) ++ R)
      ("term_years".data) v =
    PyRes.ret (P ++ ("period of ".data ++ sv ++ " years".data) ++ Q ++
        ("continue for a period of ".data ++ sv ++ " years".data) ++ R) := by
  have hk1 : ("term_years".data : S) ∈ dateKeys := by decide
  have hk2 : ("term_years".data : S) ∈ termKeys := by decide
  have e1 : (P ++ ("period of ".data ++ ds ++ " years".data) ++ Q ++
      ("continue for a period of ".data ++ ds ++ " years".data) ++ R) =
      P ++ (("period of ".data ++ ds ++ " years".data) ++
        ((Q ++ ("continue for a period of ".data ++ ds ++ " years".data)) ++ R)) := by
    simp only [List.append_assoc]
  have e2 : (P ++ ("period of ".data ++ ds ++ " years".data) ++ Q ++
      ("continue for a period of ".data ++ ds ++ " years".data) ++ R) =
      (P ++ ("period of ".data ++ ds ++ " years".data)) ++
        ((Q ++ ("continue for a period of ".data ++ ds ++ " years".data)) ++ R) := by
    simp only [List.append_assoc]
  have hP2 : ∀ i, i < P.length → periodParseAt
      ((P ++ (("period of ".data ++ ds ++ " years".data) ++
        ((Q ++ ("continue for a period of ".data ++ ds ++ " years".data)) ++ R))).drop i) =
      none := by
    intro i hi
    have := hP i hi
    rwa [e1] at this
  have hfind : periodFind (P ++ ("period of ".data ++ ds ++ " years".data) ++ Q ++
      ("continue for a period of ".data ++ ds ++ " years".data) ++ R) = some ds := by
    rw [e1, periodFind_skip P _ hP2]
    exact periodFind_of_parse _ _ (periodParseAt_header ds _ hds hdig)
  have h1b : ∀ i, i < P.length → startsWithL ("period of ".data ++ ds ++ " years".data)
      (((P ++ ("period of ".data ++ ds ++ " years".data)) ++
        ((Q ++ ("continue for a period of ".data ++ ds ++ " years".data)) ++ R)).drop i) =
      false := by
    intro i hi
    have := h1 i hi
    rwa [e2] at this
  simp only [keyEdit, hv, if_pos hk1, if_pos hk2, hfind]
  rw [e2, replaceFirstL_split _ _ P _ h1b]
  rw [show (P ++ ("period of ".data ++ sv ++ " years".data)) ++
      ((Q ++ ("continue for a period of ".data ++ ds ++ " years".data)) ++ R) =
      (P ++ ("period of ".data ++ sv ++ " years".data) ++ Q) ++
        ("continue for a period of ".data ++ ds ++ " years".data) ++ R from by
    simp only [List.append_assoc]]
  rw [replaceFirstL_split _ _ (P ++ ("period of ".data ++ sv ++ " years".data) ++ Q) R h2]

/-- Witness for C4 amended: a document with the two duration phrases and the
term digit rewritten to the new value in both. -/
theorem c4_witness :
    keyEdit ("on ".data ++ ("period of ".data ++ "3".data ++ " years".data) ++ " and ".data ++
        ("continue for a period of ".data ++ "3".data ++ " years".data) ++ " after.".data)
      ("term_years".data) (Val.vStr "5".data) =
    PyRes.ret ("on ".data ++ ("period of ".data ++ "5".data ++ " years".data) ++ " and ".data ++
        ("continue for a period of ".data ++ "5".data ++ " years".data) ++ " after.".data) :=
  c4_term_rewrite ("on ".data) (" and ".data) (" after.".data) ("3".data) ("5".data)
    (Val.vStr "5".data) rfl (by decide) (by decide) (by decide) (by decide) (by decide)

end Lexiden
